import Mathlib

/-
Shallow embedding of the ETL pipeline of the wildlife camera-trap repository
(`data_processor.py`, against the schema constraints created by
`db_setup.py`), together with theorems settling the specification claims.

Modelling conventions:
* A CSV row, after the pandas `read_csv` NA conversion, is a mapping from
  column name to `Option String`; `none` covers a missing column, a `None`
  value and a `NaN` cell alike (all of which make `pd.isna` true and make
  `row.get(col, '')` normalize to the empty string through `safe_str`).
* Python `str.strip()` is modelled by `pyStrip`, dropping whitespace
  characters from both ends.
* The SQLite tables touched by pass 2 are modelled by `DB`: append-only
  lists of records with surrogate ids assigned as `length + 1`, matching
  `AUTOINCREMENT` on the freshly created tables, and with the
  `UNIQUE(sequence_id, taxon_id)` and `image_id UNIQUE` constraints realised
  by the `INSERT OR IGNORE` presence checks of the source.
* Exceptions (`int()` failing on an unparseable frame value, a failing
  `fetchone()[0]`) are modelled by `Option`/error flags following exactly
  the `try/except` structure of the source.
-/

namespace CameraTrap

/-- A CSV row after the pandas NA handling: each named column is either
absent/NA (`none`) or holds a raw string cell. -/
def Row : Type := String → Option String

/-- The literal `na_values` list passed to `pandas.read_csv` by both passes
(line 126 / line 305 of `data_processor.py`). -/
def NA_VALUES : List String :=
  ["", "NA", "N/A", "NULL", "null", "none", "None", "NaN", "nan"]

/-- The pandas NA conversion for one raw cell under the processor's
`read_csv` parameters: a token listed in `na_values` is read as NA. -/
def readCell (s : String) : Option String :=
  if NA_VALUES.contains s then none else some s

/-- Python `str.strip()`: drop whitespace from both ends of the string. -/
def pyStrip (s : String) : String :=
  String.mk (List.rdropWhile (fun c => c.isWhitespace)
    (List.dropWhile (fun c => c.isWhitespace) s.data))

/-- `safe_str` (lines 25-29): `None`/`NaN` becomes `''`; any other value is
converted to a string and stripped. -/
def safe_str (v : Option String) : String :=
  match v with
  | none => ""
  | some s => pyStrip s

/-- `TAXONOMY_COLUMNS` (lines 18-23), in hierarchical order. -/
def TAXONOMY_COLUMNS : List String :=
  ["kingdom", "phylum", "subphylum", "superclass", "class", "subclass",
   "infraclass", "superorder", "order", "suborder", "infraorder",
   "superfamily", "family", "subfamily", "tribe", "genus", "subgenus",
   "species", "subspecies", "variety"]

/-- The sentinel token list `['', 'nan', 'none', 'null']` used for every
taxonomy field. -/
def HIER_SENTINELS : List String := ["", "nan", "none", "null"]

/-- The broader sentinel list `['', 'nan', 'none', 'null', 'empty']` used
only for `common_name`. -/
def COMMON_SENTINELS : List String := ["", "nan", "none", "null", "empty"]

/-- Python `str.lower()`, modelled characterwise (the sentinel tokens the
processor compares against are ASCII). -/
def pyLower (s : String) : String :=
  String.mk (s.data.map Char.toLower)

/-- The test `value and value.lower() not in ['', 'nan', 'none', 'null']`
applied to an already `safe_str`-normalized value. -/
def hierPresent (s : String) : Bool :=
  !(s == "") && !(HIER_SENTINELS.contains (pyLower s))

/-- The test `common_name and common_name.lower() not in
['', 'nan', 'none', 'null', 'empty']`. -/
def commonPresent (s : String) : Bool :=
  !(s == "") && !(COMMON_SENTINELS.contains (pyLower s))

/-- `find_most_specific_level` (lines 31-37): scan `reversed(TAXONOMY_COLUMNS)`
and return the first `(level, value)` pair whose value is present;
`(None, None)` — modelled as `none` — when every level is absent.  Like the
Python original it is duck-typed over anything with `.get`, so it takes the
row/dict as a plain getter. -/
def find_most_specific_level (row : Row) : Option (String × String) :=
  TAXONOMY_COLUMNS.reverse.findSome? (fun level =>
    let value := safe_str (row level)
    if hierPresent value then some (level, value) else none)

/-- `is_wildlife_row` (lines 39-51). -/
def is_wildlife_row (row : Row) : Bool :=
  TAXONOMY_COLUMNS.any (fun column => hierPresent (safe_str (row column)))
  || commonPresent (safe_str (row "common_name"))

/-- One key component for a taxonomy column (lines 56-61): the normalized
value when present, else `''`. -/
def hierKeyComp (v : Option String) : String :=
  let value := safe_str v
  if hierPresent value then value else ""

/-- The common-name key component (lines 64-68). -/
def commonKeyComp (v : Option String) : String :=
  let value := safe_str v
  if commonPresent value then value else ""

/-- `create_taxon_key` (lines 53-70): the ordered tuple of the normalized
taxonomy columns followed by the normalized common name. -/
def create_taxon_key (row : Row) : List String :=
  TAXONOMY_COLUMNS.map (fun column => hierKeyComp (row column))
  ++ [commonKeyComp (row "common_name")]

/-- A taxon record as built by Pass 1 (lines 150-171): the taxonomy columns
with their normalized value or `None`, the normalized common name or `None`,
and the derived most-specific level/name pair. -/
structure Taxon where
  hier : List (String × Option String)
  common_name : Option String
  most_specific_level : Option String
  most_specific_name : Option String
deriving DecidableEq, Repr

/-- Dictionary access `taxon.get(col, '')` on a stored taxon record: a
missing key defaults to an absent value. -/
def Taxon.get (t : Taxon) : Row := fun c =>
  if c == "common_name" then t.common_name
  else if c == "most_specific_level" then t.most_specific_level
  else if c == "most_specific_name" then t.most_specific_name
  else (t.hier.lookup c).getD none

/-- The value stored for one taxonomy column (lines 154-159). -/
def normHier (row : Row) (c : String) : Option String :=
  let value := safe_str (row c)
  if hierPresent value then some value else none

/-- The value stored for `common_name` (lines 162-166). -/
def normCommon (row : Row) : Option String :=
  let value := safe_str (row "common_name")
  if commonPresent value then some value else none

/-- Materialize the taxon record from a row (lines 150-171): copy normalized
taxonomy columns, add the normalized common name, then compute
`find_most_specific_level` on the record just built. -/
def buildTaxon (row : Row) : Taxon :=
  let hier := TAXONOMY_COLUMNS.map (fun c => (c, normHier row c))
  let cn := normCommon row
  let ms := find_most_specific_level (Taxon.get ⟨hier, cn, none, none⟩)
  ⟨hier, cn, ms.map Prod.fst, ms.map Prod.snd⟩

/-- One row of the Pass 1 scan (lines 145-173): a valid wildlife row whose
key is unseen appends its taxon record to `taxa_dict`; everything else
leaves the buffer unchanged.  (Insertion order of the Python dict is kept
by using an association list.) -/
def pass1Step (taxa : List (List String × Taxon)) (row : Row) :
    List (List String × Taxon) :=
  if is_wildlife_row row then
    let key := create_taxon_key row
    if taxa.any (fun kt => kt.1 == key) then taxa
    else taxa ++ [(key, buildTaxon row)]
  else taxa

/-- The full Pass 1 scan over the input rows.  The chunked reading (chunk
size 1000) is irrelevant here because `taxa_dict` is updated row by row. -/
def pass1Scan (rows : List Row) : List (List String × Taxon) :=
  rows.foldl pass1Step []

/-- The insertion loop of `insert_taxa_to_database`, carrying the next
`lastrowid` the fresh `taxa` table will assign. -/
def taxaIdMapGo (i : Nat) : List (List String × Taxon) →
    List (List String × Nat)
  | [] => []
  | (_, t) :: rest => (create_taxon_key t.get, i) :: taxaIdMapGo (i + 1) rest

/-- `insert_taxa_to_database` (lines 220-270): the buffered taxa are
inserted in order into the freshly created `taxa` table, receiving
surrogate ids 1, 2, ...; the returned `taxa_id_map` is keyed by
`create_taxon_key(taxon)` recomputed from the *stored* record. -/
def taxaIdMap (taxa : List (List String × Taxon)) : List (List String × Nat) :=
  taxaIdMapGo 1 taxa

/-- Association-list lookup used to model Python `dict` lookups with
list-of-strings keys. -/
def alookup {β : Type} (k : List String) (m : List (List String × β)) :
    Option β :=
  (m.find? (fun p => p.1 == k)).map (fun p => p.2)

/-! ## Pass 2: the sequences/images store -/

/-- `safe_str(...) or None` (lines 414-415, 442-444): an empty normalized
string is stored as SQL `NULL`. -/
def orNone (s : String) : Option String :=
  if s == "" then none else some s

/-- One row of the `sequences` table of `db_setup.py` (lines 62-72). -/
structure SeqRec where
  id : Nat
  sequence_id : String
  taxon_id : Nat
  location_id : Option String
  datetime : Option String
deriving DecidableEq, Repr

/-- One row of the `images` table of `db_setup.py` (lines 76-87). -/
structure ImgRec where
  id : Nat
  image_id : String
  sequence_table_id : Nat
  frame_num : Int
  url_gcp : Option String
  url_aws : Option String
  url_azure : Option String
deriving DecidableEq, Repr

/-- The two tables Pass 2 writes.  Ids are assigned as `length + 1`, which
matches `AUTOINCREMENT` on the freshly created tables. -/
structure DB where
  sequences : List SeqRec
  images : List ImgRec
deriving DecidableEq, Repr

/-- A `(sequence_id, taxon_id)` pair is present — the condition the
`UNIQUE(sequence_id, taxon_id)` constraint tests on `INSERT OR IGNORE`. -/
def pairMem (db : DB) (sid : String) (tid : Nat) : Bool :=
  db.sequences.any (fun s => s.sequence_id == sid && s.taxon_id == tid)

/-- An image identifier is present — the condition the `image_id UNIQUE`
constraint tests. -/
def imgMem (db : DB) (iid : String) : Bool :=
  db.images.any (fun im => im.image_id == iid)

/-- `INSERT OR IGNORE INTO sequences ...` (lines 408-416). -/
def insertOrIgnoreSeq (db : DB) (sid : String) (tid : Nat)
    (loc dt : Option String) : DB :=
  if pairMem db sid tid then db
  else { db with
    sequences := db.sequences ++ [⟨db.sequences.length + 1, sid, tid, loc, dt⟩] }

/-- `SELECT id FROM sequences WHERE sequence_id = ? AND taxon_id = ?`
(lines 424-427); also yields `lastrowid` right after a fresh insert, since
the freshly appended record is then the first (and only) match. -/
def findSeqId (db : DB) (sid : String) (tid : Nat) : Option Nat :=
  (db.sequences.find? (fun s => s.sequence_id == sid && s.taxon_id == tid)).map
    (fun s => s.id)

/-- Python `int(...)` on a (stripped) decimal string: `none` models a raised
`ValueError`. -/
def digitsVal : List Char → Option Nat
  | [] => none
  | ds => if ds.all Char.isDigit
      then some (ds.foldl (fun a c => a * 10 + (c.toNat - 48)) 0) else none

/-- Python `int(s)` for a string argument. -/
def pyInt (s : String) : Option Int :=
  match (pyStrip s).data with
  | [] => none
  | '+' :: ds => (digitsVal ds).map (fun n => (n : Int))
  | '-' :: ds => (digitsVal ds).map (fun n => -(n : Int))
  | ds => (digitsVal ds).map (fun n => (n : Int))

/-- The sort/insert key `int(safe_str(x.get('frame_num', '0')) or 0)`
(lines 430 and 441): a missing/NA frame or one normalizing to `''` yields 0
(the `or 0` branch, and likewise the `'0'` default for a missing column);
any other value goes through `int()`, whose failure (`none`) raises. -/
def frameVal (row : Row) : Option Int :=
  let s := safe_str (row "frame_num")
  if s == "" then some 0 else pyInt s

/-- Insert a row after every already-placed row whose key is not larger:
the insertion step of a stable ascending sort. -/
def insAfter (key : Row → Int) (x : Row) : List Row → List Row
  | [] => [x]
  | y :: ys => if key y ≤ key x then y :: insAfter key x ys else x :: y :: ys

/-- Python's stable `sorted(..., key=...)` on rows, processed left to right
so that equal keys keep their input order. -/
def pySorted (key : Row → Int) (l : List Row) : List Row :=
  l.foldl (fun acc x => insAfter key x acc) []

/-- `sorted(taxon_rows, key=...)` (line 430): the decorate step evaluates
the key on every row first, so one unparseable frame raises before any
ordering happens; otherwise Python's stable sort by ascending key. -/
def sortImages (rows : List Row) : Option (List Row) :=
  if rows.all (fun r => (frameVal r).isSome) then
    some (pySorted (fun r => (frameVal r).getD 0) rows)
  else none

/-- One image `INSERT OR IGNORE` (lines 431-449). -/
def insertImage (db : DB) (stid : Nat) (row : Row) : DB :=
  let iid := safe_str (row "image_id")
  if imgMem db iid then db
  else { db with
    images := db.images ++
      [⟨db.images.length + 1, iid, stid, (frameVal row).getD 0,
        orNone (safe_str (row "url_gcp")), orNone (safe_str (row "url_aws")),
        orNone (safe_str (row "url_azure"))⟩] }

def insertImages (db : DB) (stid : Nat) (rows : List Row) : DB :=
  rows.foldl (fun d r => insertImage d stid r) db

/-- Grouping map (`defaultdict(list)`) keyed by taxon key (lines 392-396)
and, with string keys, the Pass 2 buffering map: append the row to its
key's list, creating the key at the end in first-seen order. -/
def addToGroup {κ : Type} [BEq κ] (groups : List (κ × List Row)) (k : κ)
    (row : Row) : List (κ × List Row) :=
  if groups.any (fun g => g.1 == k) then
    groups.map (fun g => if g.1 == k then (g.1, g.2 ++ [row]) else g)
  else groups ++ [(k, [row])]

/-- `taxa_in_sequence` (lines 392-396): group a burst's rows by taxon key. -/
def groupByTaxon (rows : List Row) : List (List String × List Row) :=
  rows.foldl (fun acc row => addToGroup acc (create_taxon_key row) row) []

/-- Process one `(burst, taxon)` group (lines 399-449).  The second
component is the raised-exception flag: `true` when `fetchone()[0]` or the
`int()` inside `sorted` raises, which aborts the enclosing burst (the
`except` of lines 451-453 sits at the burst level). -/
def processGroup (idMap : List String → Option Nat) (db : DB) (sid : String)
    (k : List String) (grows : List Row) : DB × Bool :=
  match idMap k with
  | none => (db, false)
  | some tid =>
    if tid == 0 then (db, false)
    else
      match grows with
      | [] => (db, true)
      | first :: _ =>
        let db1 := insertOrIgnoreSeq db sid tid
          (orNone (safe_str (first "location_id")))
          (orNone (safe_str (first "datetime")))
        match findSeqId db1 sid tid with
        | none => (db1, true)
        | some stid =>
          match sortImages grows with
          | none => (db1, true)
          | some sorted => (insertImages db1 stid sorted, false)

/-- Process the groups of one burst in order; a raised exception skips the
burst's remaining groups (caught by the per-burst `except ... continue`). -/
def processGroups (idMap : List String → Option Nat) (db : DB) (sid : String) :
    List (List String × List Row) → DB
  | [] => db
  | (k, grows) :: rest =>
    match processGroup idMap db sid k grows with
    | (db1, true) => db1
    | (db1, false) => processGroups idMap db1 sid rest

/-- One burst of `process_sequence_batch` (lines 389-453). -/
def processBurst (idMap : List String → Option Nat) (db : DB) (sid : String)
    (rows : List Row) : DB :=
  processGroups idMap db sid (groupByTaxon rows)

/-- `process_sequence_batch`: every buffered burst is processed; the
per-burst `except ... continue` means an exception never crosses bursts. -/
def processBatch (idMap : List String → Option Nat) (db : DB)
    (batch : List (String × List Row)) : DB :=
  batch.foldl (fun d p => processBurst idMap d p.1 p.2) db

/-- Per-row buffering of Pass 2 (lines 323-329): a valid wildlife row with a
nonempty normalized `sequence_id` is appended to the buffered-burst map. -/
def addRowToBatch (batch : List (String × List Row)) (row : Row) :
    List (String × List Row) :=
  if is_wildlife_row row then
    let sid := safe_str (row "sequence_id")
    if sid == "" then batch else addToGroup batch sid row
  else batch

/-- Split the input into the chunks `pandas.read_csv(chunksize=n)` yields. -/
def chunksOf : Nat → List Row → List (List Row)
  | _, [] => []
  | 0, _ :: _ => []
  | n + 1, x :: xs =>
    (x :: xs).take (n + 1) :: chunksOf (n + 1) ((x :: xs).drop (n + 1))
termination_by _ l => l.length
decreasing_by
  simp only [List.length_drop, List.length_cons]
  omega

/-- The chunk loop of `pass_2_process_sequences` (lines 312-368): buffer
each chunk's rows, flush when at least 5000 distinct bursts are buffered,
and flush whatever remains after the last chunk. -/
def pass2Chunks (idMap : List String → Option Nat) :
    List (List Row) → DB → List (String × List Row) → DB
  | [], db, batch => if batch.isEmpty then db else processBatch idMap db batch
  | c :: rest, db, batch =>
    let batch1 := c.foldl addRowToBatch batch
    if 5000 ≤ batch1.length then
      pass2Chunks idMap rest (processBatch idMap db batch1) []
    else pass2Chunks idMap rest db batch1

/-- Pass 2 end to end as a transformation of the store. -/
def pass2 (idMap : List String → Option Nat) (rows : List Row) (db : DB) :
    DB :=
  pass2Chunks idMap (chunksOf 1000 rows) db []

/-! ## Pipeline control flow (`main`, lines 505-567) -/

/-- The specification's name for the Pass 1 zero-taxa failure; the source
signals it by returning `(None, None)` after its zero check (lines
210-212), which `main` turns into `sys.exit(1)` (lines 542-544). -/
inductive PipelineError where
  | EmptyResultError
deriving DecidableEq, Repr

/-- `pass_1_extract_taxa` (lines 99-218) as a fallible computation: the
full scan, the zero-taxa check, then the taxa insertion producing
`taxa_id_map`. -/
def pass_1_extract_taxa (rows : List Row) :
    Except PipelineError (List (List String × Nat) × List (List String × Taxon)) :=
  let taxa := pass1Scan rows
  if taxa.isEmpty then Except.error PipelineError.EmptyResultError
  else Except.ok (taxaIdMap taxa, taxa)

/-- `main` (lines 539-547) restricted to what it does with the store:
returns the process exit code, whether Pass 2 was entered, and the final
store contents. -/
def mainRun (rows : List Row) (db : DB) : Nat × Bool × DB :=
  match pass_1_extract_taxa rows with
  | Except.error _ => (1, false, db)
  | Except.ok (idMap, _) => (0, true, pass2 (fun k => alookup k idMap) rows db)

/-! ## The amended spec-side key description (claim C2) -/

/-- The composite key as the amended claim words it: the ordered tuple of
the hierarchy fields followed by the common-name field, each absent or
sentinel-valued field represented as the empty string. -/
def specTaxonKey (row : Row) : List String :=
  (TAXONOMY_COLUMNS.map (fun c =>
    if hierPresent (safe_str (row c)) then safe_str (row c) else ""))
  ++ [if commonPresent (safe_str (row "common_name"))
      then safe_str (row "common_name") else ""]

/-! ## Pass 2 with fallible storage writes (claim C9)

The same flush code, with every `cursor.execute` write allowed to raise:
`fail` decides which write statements fail.  A failed statement leaves the
store unchanged, the raised error is caught by the per-burst
`except ... continue` (lines 451-453), and earlier effects of the same
burst and batch are kept (no per-burst rollback exists). -/

/-- A write statement issued during a flush. -/
inductive Wop where
  | seqIns (sid : String) (tid : Nat)
  | imgIns (iid : String)
deriving DecidableEq, Repr

def insertImagesF (fail : Wop → Bool) (db : DB) (stid : Nat) :
    List Row → DB × Bool
  | [] => (db, false)
  | r :: rs =>
    if fail (Wop.imgIns (safe_str (r "image_id"))) then (db, true)
    else insertImagesF fail (insertImage db stid r) stid rs

def processGroupF (fail : Wop → Bool) (idMap : List String → Option Nat)
    (db : DB) (sid : String) (k : List String) (grows : List Row) :
    DB × Bool :=
  match idMap k with
  | none => (db, false)
  | some tid =>
    if tid == 0 then (db, false)
    else
      match grows with
      | [] => (db, true)
      | first :: _ =>
        if fail (Wop.seqIns sid tid) then (db, true)
        else
          let db1 := insertOrIgnoreSeq db sid tid
            (orNone (safe_str (first "location_id")))
            (orNone (safe_str (first "datetime")))
          match findSeqId db1 sid tid with
          | none => (db1, true)
          | some stid =>
            match sortImages grows with
            | none => (db1, true)
            | some sorted => insertImagesF fail db1 stid sorted

def processGroupsF (fail : Wop → Bool) (idMap : List String → Option Nat)
    (db : DB) (sid : String) : List (List String × List Row) → DB
  | [] => db
  | (k, grows) :: rest =>
    match processGroupF fail idMap db sid k grows with
    | (db1, true) => db1
    | (db1, false) => processGroupsF fail idMap db1 sid rest

def processBurstF (fail : Wop → Bool) (idMap : List String → Option Nat)
    (db : DB) (sid : String) (rows : List Row) : DB :=
  processGroupsF fail idMap db sid (groupByTaxon rows)

def processBatchF (fail : Wop → Bool) (idMap : List String → Option Nat)
    (db : DB) (batch : List (String × List Row)) : DB :=
  batch.foldl (fun d p => processBurstF fail idMap d p.1 p.2) db

/-- The failure scenario of claim C9: every write to the `sequences` table
for burst `b` fails (so the very first write of burst `b`'s flush work
fails), and no other write fails. -/
def failSeqOf (b : String) : Wop → Bool
  | Wop.seqIns sid _ => sid == b
  | Wop.imgIns _ => false

/-! ## Helper predicates and concrete inputs for the claim theorems -/

/-- Uniqueness of `(sequence_id, taxon_id)` over the `sequences` table —
the `UNIQUE(sequence_id, taxon_id)` constraint of `db_setup.py`. -/
def seqPairsUnique (db : DB) : Prop :=
  db.sequences.Pairwise
    (fun a b => a.sequence_id ≠ b.sequence_id ∨ a.taxon_id ≠ b.taxon_id)

/-- `db2` extends `db` by appended records only (pass 2 never deletes or
updates). -/
def Ext (db db2 : DB) : Prop :=
  ∃ s i, db2.sequences = db.sequences ++ s ∧ db2.images = db.images ++ i

/-- Build a row from an association list of cells. -/
def rowOf (cells : List (String × String)) : Row := fun c => cells.lookup c

def emptyDB : DB := ⟨[], []⟩

def exRowSpecies : Row := rowOf [("species", "Vulpes vulpes")]

def exRowSubspecies : Row :=
  rowOf [("species", "Vulpes vulpes"), ("subspecies", "Vulpes vulpes fulvus")]

def exRowLower : Row := rowOf [("species", "puma concolor")]

def exRowUpper : Row := rowOf [("species", "Puma concolor")]

/-- The §8 scenario rows: burst `1001`, a coyote at frames 2 and 1 and a
puma at frame 1. -/
def coyRowA : Row :=
  rowOf [("species", "Canis latrans"), ("sequence_id", "1001"),
         ("image_id", "A"), ("frame_num", "2")]

def coyRowB : Row :=
  rowOf [("species", "Canis latrans"), ("sequence_id", "1001"),
         ("image_id", "B"), ("frame_num", "1")]

def pumaRowC : Row :=
  rowOf [("species", "Puma concolor"), ("sequence_id", "1001"),
         ("image_id", "C"), ("frame_num", "1")]

/-- A coyote row whose frame value parses under no circumstances. -/
def coyRowBad : Row :=
  rowOf [("species", "Canis latrans"), ("sequence_id", "1001"),
         ("image_id", "X"), ("frame_num", "abc")]

/-- A coyote row with no frame value at all. -/
def coyRowNoFrame : Row :=
  rowOf [("species", "Canis latrans"), ("sequence_id", "1001"),
         ("image_id", "X")]

/-- A second burst used by the C9 scenario. -/
def pumaRowD : Row :=
  rowOf [("species", "Puma concolor"), ("sequence_id", "1002"),
         ("image_id", "D"), ("frame_num", "1")]

/-- A concrete injective id map giving the coyote taxon id 1 and the puma
taxon id 2. -/
def idMapEx : List String → Option Nat := fun k =>
  if k == create_taxon_key coyRowA then some 1
  else if k == create_taxon_key pumaRowC then some 2
  else none

/-- A wildlife row without any usable burst identifier. -/
def exRowNoSeq : Row :=
  rowOf [("species", "Vulpes vulpes"), ("sequence_id", "  ")]

/-! ## Normalization lemmas -/

theorem dropWhile_eq_self_of_prefix {α : Type} (p : α → Bool) {x y : List α}
    (hpre : x <+: y) (hy : y.dropWhile p = y) : x.dropWhile p = x := by
  cases x with
  | nil => rfl
  | cons a x' =>
    obtain ⟨t, ht⟩ := hpre
    subst ht
    rw [List.cons_append, List.dropWhile_cons] at hy
    by_cases hp : p a = true
    · rw [if_pos hp] at hy
      have hlen := (List.dropWhile_sublist (l := x' ++ t) p).length_le
      rw [hy] at hlen
      simp at hlen
    · rw [List.dropWhile_cons, if_neg hp]

theorem pyStrip_idem (s : String) : pyStrip (pyStrip s) = pyStrip s := by
  have key : ∀ l : List Char,
      List.rdropWhile (fun c => c.isWhitespace)
        (List.dropWhile (fun c => c.isWhitespace)
          (List.rdropWhile (fun c => c.isWhitespace)
            (List.dropWhile (fun c => c.isWhitespace) l)))
        = List.rdropWhile (fun c => c.isWhitespace)
            (List.dropWhile (fun c => c.isWhitespace) l) := by
    intro l
    have h1 := dropWhile_eq_self_of_prefix (fun c => c.isWhitespace)
      (List.rdropWhile_prefix (fun c => c.isWhitespace)
        (List.dropWhile (fun c => c.isWhitespace) l))
      (List.dropWhile_idempotent (fun c => c.isWhitespace) l)
    rw [h1, List.rdropWhile_idempotent]
  exact congrArg String.mk (key s.data)

theorem pyStrip_safe_str (v : Option String) :
    pyStrip (safe_str v) = safe_str v := by
  cases v with
  | none => decide
  | some s => exact pyStrip_idem s

theorem safe_str_some_safe_str (v : Option String) :
    safe_str (some (safe_str v)) = safe_str v :=
  pyStrip_safe_str v

theorem hierPresent_empty : hierPresent "" = false := by decide

theorem commonPresent_empty : commonPresent "" = false := by decide

theorem safe_str_none : safe_str none = "" := rfl

theorem hierKeyComp_normHier (row : Row) (c : String) :
    hierKeyComp (normHier row c) = hierKeyComp (row c) := by
  by_cases h : hierPresent (safe_str (row c)) = true
  · simp only [normHier, hierKeyComp, h, if_true, safe_str_some_safe_str]
  · have h' : hierPresent (safe_str (row c)) = false := by
      simpa using h
    simp only [normHier, hierKeyComp, h', Bool.false_eq_true, if_false,
      safe_str_none, hierPresent_empty]

theorem commonKeyComp_normCommon (row : Row) :
    commonKeyComp (normCommon row) = commonKeyComp (row "common_name") := by
  by_cases h : commonPresent (safe_str (row "common_name")) = true
  · simp only [normCommon, commonKeyComp, h, if_true, safe_str_some_safe_str]
  · have h' : commonPresent (safe_str (row "common_name")) = false := by
      simpa using h
    simp only [normCommon, commonKeyComp, h', Bool.false_eq_true, if_false,
      safe_str_none, commonPresent_empty]

theorem buildTaxon_get_common (row : Row) :
    (buildTaxon row).get "common_name" = normCommon row := rfl

theorem buildTaxon_get_hier (row : Row) :
    ∀ c ∈ TAXONOMY_COLUMNS, (buildTaxon row).get c = normHier row c := by
  intro c hc
  fin_cases hc <;> rfl

/-- The `taxa_id_map` key recomputed from the stored record coincides with
the key of the originating row: normalization is idempotent. -/
theorem key_buildTaxon (row : Row) :
    create_taxon_key (buildTaxon row).get = create_taxon_key row := by
  unfold create_taxon_key
  have h1 : TAXONOMY_COLUMNS.map (fun c => hierKeyComp ((buildTaxon row).get c))
      = TAXONOMY_COLUMNS.map (fun c => hierKeyComp (row c)) :=
    List.map_congr_left (fun c hc => by
      rw [buildTaxon_get_hier row c hc, hierKeyComp_normHier])
  rw [h1, buildTaxon_get_common, commonKeyComp_normCommon]

/-! ## Claim C2 -/

/-- C2, counterexample: the claim says the composite key has 20 components
(19 hierarchy fields plus common name); the key built by `create_taxon_key`
has 21 components, because `TAXONOMY_COLUMNS` lists 20 ranks from kingdom
to variety. -/
theorem key_arity_counterexample :
    ¬ ((create_taxon_key exRowSpecies).length = 20 ∧
      TAXONOMY_COLUMNS.length = 19) := by decide

/-- C2 as amended: the composite taxon key is the ordered tuple of the 20
hierarchy fields (kingdom through variety) followed by the common-name
field — 21 components in total — each absent or sentinel-valued field
represented as the empty string; two keys match exactly when every
normalized component matches as a string, with no case folding (two rows
differing only in letter case get different keys). -/
theorem key_amended (row : Row) :
    TAXONOMY_COLUMNS.length = 20 ∧
    (create_taxon_key row).length = 21 ∧
    create_taxon_key row = specTaxonKey row ∧
    (∀ r1 r2 : Row, create_taxon_key r1 = create_taxon_key r2 ↔
      ((∀ c ∈ TAXONOMY_COLUMNS, hierKeyComp (r1 c) = hierKeyComp (r2 c)) ∧
        commonKeyComp (r1 "common_name") = commonKeyComp (r2 "common_name"))) ∧
    create_taxon_key exRowUpper ≠ create_taxon_key exRowLower := by
  refine ⟨by decide, ?_, rfl, ?_, by decide⟩
  · simp [create_taxon_key, TAXONOMY_COLUMNS]
  · intro r1 r2
    constructor
    · intro h
      unfold create_taxon_key at h
      have hlen : (TAXONOMY_COLUMNS.map (fun c => hierKeyComp (r1 c))).length
          = (TAXONOMY_COLUMNS.map (fun c => hierKeyComp (r2 c))).length := by
        simp
      obtain ⟨h1, h2⟩ := List.append_inj h hlen
      refine ⟨List.map_inj_left.mp h1, ?_⟩
      simpa using h2
    · intro ⟨h1, h2⟩
      unfold create_taxon_key
      rw [List.map_congr_left h1, h2]

/-- C2 witness. -/
theorem key_amended_witness :
    (create_taxon_key exRowSpecies).length = 21 ∧
    create_taxon_key exRowSpecies = specTaxonKey exRowSpecies ∧
    create_taxon_key exRowUpper ≠ create_taxon_key exRowLower :=
  ⟨(key_amended exRowSpecies).2.1, (key_amended exRowSpecies).2.2.1,
    (key_amended exRowSpecies).2.2.2.2⟩

/-! ## Claim C3 -/

/-- C3: a row is accepted by the classifier exactly when some hierarchy
field is present after normalization (trimming; the case-insensitive
sentinel tokens of `HIER_SENTINELS` count as absent), or the common-name
field is present under the broader sentinel list that additionally
excludes the literal token `empty`. -/
theorem wildlife_iff (row : Row) :
    is_wildlife_row row = true ↔
      ((∃ c ∈ TAXONOMY_COLUMNS, safe_str (row c) ≠ "" ∧
          pyLower (safe_str (row c)) ∉ HIER_SENTINELS) ∨
        (safe_str (row "common_name") ≠ "" ∧
          pyLower (safe_str (row "common_name")) ∉ COMMON_SENTINELS)) := by
  simp [is_wildlife_row, hierPresent, commonPresent, List.any_eq_true]

/-- C3 witness: a species-only row is accepted; a row whose only content is
a common name equal to `EMPTY` is not (the asymmetric exclusion). -/
theorem wildlife_iff_witness :
    is_wildlife_row exRowSpecies = true ∧
    is_wildlife_row (rowOf [("common_name", "EMPTY")]) = false :=
  ⟨(wildlife_iff exRowSpecies).mpr
      (Or.inl ⟨"species", by decide, by decide, by decide⟩),
    by decide⟩

/-! ## Claim C7 -/

/-- C7: `find_most_specific_level` returns `none` exactly when every
hierarchy field is absent; it returns `some (level, value)` exactly when
`level`'s normalized value `value` is present and every strictly more
specific rank (every rank after `level` in the kingdom-to-variety order)
is absent; in particular a row with only `species` populated yields rank
`species` and a row with `species` and `subspecies` populated yields rank
`subspecies`. -/
theorem most_specific_spec (row : Row) :
    (find_most_specific_level row = none ↔
      ∀ c ∈ TAXONOMY_COLUMNS, hierPresent (safe_str (row c)) = false) ∧
    (∀ level value, find_most_specific_level row = some (level, value) ↔
      (value = safe_str (row level) ∧ hierPresent value = true ∧
        ∃ pre post, TAXONOMY_COLUMNS = pre ++ level :: post ∧
          ∀ d ∈ post, hierPresent (safe_str (row d)) = false)) ∧
    find_most_specific_level exRowSpecies = some ("species", "Vulpes vulpes") ∧
    find_most_specific_level exRowSubspecies =
      some ("subspecies", "Vulpes vulpes fulvus") := by
  refine ⟨?_, ?_, by decide, by decide⟩
  · unfold find_most_specific_level
    rw [List.findSome?_eq_none_iff]
    constructor
    · intro h c hc
      have hcc := h c (List.mem_reverse.mpr hc)
      by_cases hp : hierPresent (safe_str (row c)) = true
      · simp [hp] at hcc
      · simpa using hp
    · intro h c hc
      have := h c (List.mem_reverse.mp hc)
      simp [this]
  · intro level value
    unfold find_most_specific_level
    rw [List.findSome?_eq_some_iff]
    constructor
    · rintro ⟨l1, a, l2, hsplit, ha, hnone⟩
      by_cases hp : hierPresent (safe_str (row a)) = true
      · simp only [hp, if_true] at ha
        have hpair := Option.some.inj ha
        have hlev : a = level := congrArg Prod.fst hpair
        have hval : safe_str (row a) = value := congrArg Prod.snd hpair
        subst hlev
        refine ⟨hval.symm, hval ▸ hp, l2.reverse, l1.reverse, ?_, ?_⟩
        · have h2 : TAXONOMY_COLUMNS.reverse.reverse
              = (l1 ++ a :: l2).reverse := by rw [hsplit]
          simpa [List.reverse_append] using h2
        · intro d hd
          have hdd := hnone d (List.mem_reverse.mp hd)
          by_cases hpd : hierPresent (safe_str (row d)) = true
          · simp [hpd] at hdd
          · simpa using hpd
      · simp only [hp, if_false] at ha
        simp at ha
    · rintro ⟨rfl, hp, pre, post, hsplit, habsent⟩
      refine ⟨post.reverse, level, pre.reverse, ?_, ?_, ?_⟩
      · rw [hsplit]
        simp [List.reverse_append]
      · simp [hp]
      · intro x hx
        have := habsent x (List.mem_reverse.mp hx)
        simp [this]

/-! ## Pass 1 lemmas and claim C1 -/

theorem alookup_nil {β : Type} (k : List String) :
    alookup k ([] : List (List String × β)) = none := rfl

theorem alookup_append {β : Type} (k : List String)
    (a b : List (List String × β)) :
    alookup k (a ++ b) = (alookup k a).or (alookup k b) := by
  unfold alookup
  rw [List.find?_append]
  cases List.find? (fun p => p.1 == k) a <;> simp [Option.or]

theorem alookup_isSome_iff {β : Type} (k : List String)
    (m : List (List String × β)) :
    (alookup k m).isSome = true ↔ ∃ p ∈ m, p.1 = k := by
  unfold alookup
  rw [Option.isSome_map', List.find?_isSome]
  constructor
  · rintro ⟨p, hp, hpk⟩
    exact ⟨p, hp, by simpa using hpk⟩
  · rintro ⟨p, hp, hpk⟩
    exact ⟨p, hp, by simpa using hpk⟩

theorem alookup_eq_some_mem {β : Type} {k : List String}
    {m : List (List String × β)} {v : β} (h : alookup k m = some v) :
    (k, v) ∈ m := by
  unfold alookup at h
  rw [Option.map_eq_some'] at h
  obtain ⟨p, hfind, hv⟩ := h
  have hm := List.mem_of_find?_eq_some hfind
  have hpk : p.1 = k := by simpa using List.find?_some hfind
  obtain ⟨p1, p2⟩ := p
  have e1 : p1 = k := hpk
  have e2 : p2 = v := hv
  rw [e1, e2] at hm
  exact hm

theorem alookup_singleton_ne {β : Type} {k k2 : List String} (v : β)
    (h : ¬ k2 = k) : alookup k [(k2, v)] = none := by
  unfold alookup
  have hb : (((k2, v) : List String × β).1 == k) = false := by
    simpa using h
  simp [List.find?_cons, hb]

/-- The key invariant of the Pass 1 scan loop: looking up a key in the
buffer after folding more rows gives the buffered entry if the key was
already present, else the taxon built from the first wildlife row of the
remaining input that carries the key. -/
theorem pass1_fold_lookup (k : List String) :
    ∀ (l : List Row) (acc : List (List String × Taxon)),
      alookup k (List.foldl pass1Step acc l)
        = (alookup k acc).or
            ((l.find? (fun r => is_wildlife_row r
              && (create_taxon_key r == k))).map buildTaxon) := by
  intro l
  induction l with
  | nil => intro acc; simp [Option.or_none]
  | cons r l ih =>
    intro acc
    rw [List.foldl_cons, ih (pass1Step acc r), List.find?_cons]
    by_cases hw : is_wildlife_row r = true
    · by_cases hk : create_taxon_key r = k
      · by_cases hseen :
            (acc.any (fun kt => kt.1 == create_taxon_key r)) = true
        · have hstep : pass1Step acc r = acc := by
            simp [pass1Step, hw, hseen]
          have hsome : (alookup k acc).isSome = true := by
            rw [alookup_isSome_iff]
            rw [List.any_eq_true] at hseen
            obtain ⟨p, hp, hpk⟩ := hseen
            exact ⟨p, hp, by rw [← hk]; simpa using hpk⟩
          have habs : ∀ y, (alookup k acc).or y = alookup k acc := by
            intro y
            cases hx : alookup k acc
            · rw [hx] at hsome; simp at hsome
            · rfl
          rw [hstep, habs, habs]
        · have hstep : pass1Step acc r
              = acc ++ [(create_taxon_key r, buildTaxon r)] := by
            simp [pass1Step, hw, hseen]
          have hnone : alookup k acc = none := by
            cases hx : alookup k acc with
            | none => rfl
            | some v =>
              exfalso
              have := alookup_eq_some_mem hx
              have : acc.any (fun kt => kt.1 == create_taxon_key r)
                  = true := by
                rw [List.any_eq_true]
                exact ⟨(k, v), this, by simp [hk]⟩
              exact absurd this hseen
          rw [hstep, alookup_append, hnone, Option.none_or, Option.none_or]
          have hpred : (is_wildlife_row r
              && (create_taxon_key r == k)) = true := by
            simp [hw, hk]
          rw [hpred]
          have hsingle : alookup k [(create_taxon_key r, buildTaxon r)]
              = some (buildTaxon r) := by
            unfold alookup
            simp [List.find?, hk]
          rw [hsingle]
          rfl
      · have hpred : (is_wildlife_row r
            && (create_taxon_key r == k)) = false := by
          simp [hw, hk]
        rw [hpred]
        have hstep : alookup k (pass1Step acc r) = alookup k acc := by
          unfold pass1Step
          rw [if_pos hw]
          by_cases hseen :
              (acc.any (fun kt => kt.1 == create_taxon_key r)) = true
          · rw [if_pos hseen]
          · rw [if_neg hseen, alookup_append,
              alookup_singleton_ne _ hk, Option.or_none]
        rw [hstep]
    · have hw' : is_wildlife_row r = false := by simpa using hw
      have hstep : pass1Step acc r = acc := by simp [pass1Step, hw']
      have hpred : (is_wildlife_row r
          && (create_taxon_key r == k)) = false := by
        simp [hw']
      rw [hstep, hpred]

theorem pass1Scan_lookup (rows : List Row) (k : List String) :
    alookup k (pass1Scan rows)
      = (rows.find? (fun r => is_wildlife_row r
          && (create_taxon_key r == k))).map buildTaxon := by
  have h := pass1_fold_lookup k rows []
  rwa [alookup_nil, Option.none_or] at h

theorem pass1Scan_keys_nodup_go :
    ∀ (l : List Row) (acc : List (List String × Taxon)),
      (acc.map Prod.fst).Nodup →
      ((List.foldl pass1Step acc l).map Prod.fst).Nodup := by
  intro l
  induction l with
  | nil => intro acc h; exact h
  | cons r l ih =>
    intro acc h
    rw [List.foldl_cons]
    apply ih
    unfold pass1Step
    by_cases hw : is_wildlife_row r = true
    · rw [if_pos hw]
      by_cases hseen :
          (acc.any (fun kt => kt.1 == create_taxon_key r)) = true
      · rwa [if_pos hseen]
      · rw [if_neg hseen, List.map_append]
        rw [List.nodup_append]
        refine ⟨h, by simp, ?_⟩
        intro x hx
        simp only [List.map_cons, List.map_nil, List.mem_singleton]
        intro hcon
        apply hseen
        rw [List.any_eq_true]
        rw [List.mem_map] at hx
        obtain ⟨p, hp, hpx⟩ := hx
        exact ⟨p, hp, by simp [hpx, hcon]⟩
    · rwa [if_neg hw]

theorem pass1Scan_keys_nodup (rows : List Row) :
    ((pass1Scan rows).map Prod.fst).Nodup :=
  pass1Scan_keys_nodup_go rows [] (by simp)

theorem taxaIdMapGo_id_ge :
    ∀ (taxa : List (List String × Taxon)) (i : Nat) (p : List String × Nat),
      p ∈ taxaIdMapGo i taxa → i ≤ p.2 := by
  intro taxa
  induction taxa with
  | nil => intro i p h; simp [taxaIdMapGo] at h
  | cons a rest ih =>
    intro i p h
    obtain ⟨_, t⟩ := a
    rw [taxaIdMapGo] at h
    rcases List.mem_cons.mp h with h1 | h1
    · rw [h1]
    · exact Nat.le_of_succ_le (ih (i + 1) p h1)

theorem taxaIdMapGo_ids_nodup :
    ∀ (taxa : List (List String × Taxon)) (i : Nat),
      ((taxaIdMapGo i taxa).map Prod.snd).Nodup := by
  intro taxa
  induction taxa with
  | nil => intro i; simp [taxaIdMapGo]
  | cons a rest ih =>
    intro i
    obtain ⟨_, t⟩ := a
    rw [taxaIdMapGo, List.map_cons, List.nodup_cons]
    refine ⟨?_, ih (i + 1)⟩
    intro hmem
    rw [List.mem_map] at hmem
    obtain ⟨p, hp, hpi⟩ := hmem
    have := taxaIdMapGo_id_ge rest (i + 1) p hp
    omega

theorem taxaIdMapGo_mem_key :
    ∀ (taxa : List (List String × Taxon)) (i : Nat)
      (p : List String × Taxon), p ∈ taxa →
      create_taxon_key p.2.get ∈ (taxaIdMapGo i taxa).map Prod.fst := by
  intro taxa
  induction taxa with
  | nil => intro i p h; simp at h
  | cons a rest ih =>
    intro i p h
    obtain ⟨ka, ta⟩ := a
    rw [taxaIdMapGo, List.map_cons]
    rcases List.mem_cons.mp h with h1 | h1
    · rw [h1]
      exact List.mem_cons_self _ _
    · exact List.mem_cons_of_mem _ (ih (i + 1) p h1)

/-- Support for claim C4: the Pass 1 id map is injective — distinct keys
never receive the same surrogate id. -/
theorem taxaIdMap_injective (taxa : List (List String × Taxon))
    {k1 k2 : List String} {v : Nat}
    (h1 : alookup k1 (taxaIdMap taxa) = some v)
    (h2 : alookup k2 (taxaIdMap taxa) = some v) : k1 = k2 := by
  have m1 := alookup_eq_some_mem h1
  have m2 := alookup_eq_some_mem h2
  have hnd := taxaIdMapGo_ids_nodup taxa 1
  have := List.inj_on_of_nodup_map hnd m1 m2 rfl
  exact congrArg Prod.fst this

/-- C1: Pass 1 keeps exactly one buffered taxon per distinct composite key
(the key list of the scan result has no duplicates); the entry stored for
a key is the record built from the *first* wildlife row carrying that key,
so later rows never overwrite it; and any two wildlife rows of the input
with equal keys resolve through `taxa_id_map` to the same, existing,
surrogate id. -/
theorem pass1_first_seen_wins (rows : List Row) :
    ((pass1Scan rows).map Prod.fst).Nodup ∧
    (∀ k, alookup k (pass1Scan rows)
      = (rows.find? (fun r => is_wildlife_row r
          && (create_taxon_key r == k))).map buildTaxon) ∧
    (∀ r1 r2, r1 ∈ rows → r2 ∈ rows →
      is_wildlife_row r1 = true → is_wildlife_row r2 = true →
      create_taxon_key r1 = create_taxon_key r2 →
      (alookup (create_taxon_key r1)
        (taxaIdMap (pass1Scan rows))).isSome = true ∧
      alookup (create_taxon_key r1) (taxaIdMap (pass1Scan rows))
        = alookup (create_taxon_key r2) (taxaIdMap (pass1Scan rows))) := by
  refine ⟨pass1Scan_keys_nodup rows, pass1Scan_lookup rows, ?_⟩
  intro r1 r2 hm1 _ hw1 _ hkeq
  refine ⟨?_, by rw [hkeq]⟩
  set k := create_taxon_key r1 with hk
  have hlook := pass1Scan_lookup rows k
  have hfind : (rows.find? (fun r => is_wildlife_row r
      && (create_taxon_key r == k))).isSome = true := by
    rw [List.find?_isSome]
    exact ⟨r1, hm1, by simp [hw1, hk]⟩
  obtain ⟨r', hr'⟩ := Option.isSome_iff_exists.mp hfind
  have hp := List.find?_some hr'
  have hkr' : create_taxon_key r' = k := by
    have := (Bool.and_eq_true _ _).mp hp
    simpa using this.2
  have hscan : alookup k (pass1Scan rows) = some (buildTaxon r') := by
    rw [hlook, hr', Option.map_some']
  have hmem := alookup_eq_some_mem hscan
  have hkey := taxaIdMapGo_mem_key (pass1Scan rows) 1 (k, buildTaxon r') hmem
  rw [alookup_isSome_iff]
  have hkb : create_taxon_key (buildTaxon r').get = k := by
    rw [key_buildTaxon, hkr']
  rw [hkb] at hkey
  rw [List.mem_map] at hkey
  obtain ⟨p, hp2, hpk⟩ := hkey
  exact ⟨p, hp2, hpk⟩

/-- C1 witness: a duplicate-key input; the duplicated species row resolves
to an existing surrogate id. -/
theorem pass1_first_seen_wins_witness :
    (alookup (create_taxon_key exRowSpecies)
      (taxaIdMap (pass1Scan [exRowSpecies, exRowSubspecies, exRowSpecies]))
      ).isSome = true :=
  ((pass1_first_seen_wins [exRowSpecies, exRowSubspecies, exRowSpecies]).2.2
    exRowSpecies exRowSpecies (List.mem_cons_self _ _)
    (List.mem_cons_self _ _) (by decide) (by decide) rfl).1

/-- C7 witness. -/
theorem most_specific_spec_witness :
    find_most_specific_level exRowSpecies = some ("species", "Vulpes vulpes") ∧
    find_most_specific_level exRowSubspecies =
      some ("subspecies", "Vulpes vulpes fulvus") :=
  ⟨(most_specific_spec exRowSpecies).2.2.1,
    (most_specific_spec exRowSubspecies).2.2.2⟩

/-! ## Claim C8 -/

/-- C8: if the full Pass 1 scan discovers zero taxa, Pass 1 fails with the
empty-result error, the pipeline halts before Pass 2 runs (the Pass 2 flag
of `mainRun` is `false` and the store is untouched), and the process exit
code is nonzero. -/
theorem empty_taxa_halts (rows : List Row) (db : DB)
    (h : pass1Scan rows = []) :
    pass_1_extract_taxa rows = Except.error PipelineError.EmptyResultError ∧
    mainRun rows db = (1, false, db) ∧ (mainRun rows db).1 ≠ 0 := by
  have h1 : pass_1_extract_taxa rows
      = Except.error PipelineError.EmptyResultError := by
    unfold pass_1_extract_taxa
    rw [h]
    rfl
  have h2 : mainRun rows db = (1, false, db) := by
    unfold mainRun
    rw [h1]
  exact ⟨h1, h2, by rw [h2]; simp⟩

/-- C8 witness: an input whose only row has no taxonomic content. -/
theorem empty_taxa_halts_witness :
    pass1Scan [rowOf [("location_id", "loc1")]] = [] ∧
    mainRun [rowOf [("location_id", "loc1")]] emptyDB = (1, false, emptyDB) :=
  ⟨by decide,
    (empty_taxa_halts [rowOf [("location_id", "loc1")]] emptyDB
      (by decide)).2.1⟩

/-! ## Claim C10 -/

theorem foldl_addRowToBatch_skip {batch : List (String × List Row)} :
    ∀ (c : List Row), (∀ r ∈ c, safe_str (r "sequence_id") = "") →
      c.foldl addRowToBatch batch = batch := by
  intro c
  induction c generalizing batch with
  | nil => intro _; rfl
  | cons r c ih =>
    intro h
    rw [List.foldl_cons]
    have hr : addRowToBatch batch r = batch := by
      unfold addRowToBatch
      by_cases hw : is_wildlife_row r = true
      · rw [if_pos hw]
        have : (safe_str (r "sequence_id") == "") = true := by
          simp [h r (List.mem_cons_self _ _)]
        simp only [this, if_true]
      · rw [if_neg hw]
    rw [hr]
    exact ih (fun x hx => h x (List.mem_cons_of_mem _ hx))

theorem chunksOf_subset :
    ∀ (n : Nat) (l : List Row) (c : List Row), c ∈ chunksOf n l →
      ∀ r ∈ c, r ∈ l := by
  intro n l
  induction n, l using chunksOf.induct with
  | case1 _ => intro c hc; simp [chunksOf] at hc
  | case2 => intro c hc; simp [chunksOf] at hc
  | case3 n x xs ih =>
    intro c hc
    rw [chunksOf] at hc
    rcases List.mem_cons.mp hc with h1 | h1
    · intro r hr
      rw [h1] at hr
      exact List.take_subset _ _ hr
    · intro r hr
      exact List.drop_subset _ _ (ih c h1 r hr)

theorem pass2Chunks_empty_sid (idMap : List String → Option Nat) :
    ∀ (cs : List (List Row)) (db : DB),
      (∀ c ∈ cs, ∀ r ∈ c, safe_str (r "sequence_id") = "") →
      pass2Chunks idMap cs db [] = db := by
  intro cs
  induction cs with
  | nil => intro db _; rfl
  | cons c cs ih =>
    intro db h
    rw [pass2Chunks]
    rw [foldl_addRowToBatch_skip c (h c (List.mem_cons_self _ _))]
    rw [if_neg (by decide)]
    exact ih db (fun c2 hc2 => h c2 (List.mem_cons_of_mem _ hc2))

/-- C10: a valid wildlife row whose `sequence_id` is absent, NA, or
normalizes to the empty string is never buffered by Pass 2 (the buffering
step leaves the burst map unchanged), and an input consisting of such rows
leaves the store completely untouched — silently, with no error — even
though such a row still contributes its taxon key to the Pass 1 buffer. -/
theorem missing_sequence_id_skipped :
    (∀ (batch : List (String × List Row)) (row : Row),
      safe_str (row "sequence_id") = "" → addRowToBatch batch row = batch) ∧
    (∀ (idMap : List String → Option Nat) (rows : List Row) (db : DB),
      (∀ r ∈ rows, safe_str (r "sequence_id") = "") →
      pass2 idMap rows db = db) ∧
    (∀ (taxa : List (List String × Taxon)) (row : Row),
      is_wildlife_row row = true →
      ∃ p ∈ pass1Step taxa row, p.1 = create_taxon_key row) := by
  refine ⟨?_, ?_, ?_⟩
  · intro batch row h
    unfold addRowToBatch
    by_cases hw : is_wildlife_row row = true
    · rw [if_pos hw]
      have : (safe_str (row "sequence_id") == "") = true := by simp [h]
      simp only [this, if_true]
    · rw [if_neg hw]
  · intro idMap rows db h
    unfold pass2
    exact pass2Chunks_empty_sid idMap _ db
      (fun c hc r hr => h r (chunksOf_subset 1000 rows c hc r hr))
  · intro taxa row hw
    unfold pass1Step
    rw [if_pos hw]
    by_cases hseen :
        (taxa.any (fun kt => kt.1 == create_taxon_key row)) = true
    · rw [if_pos hseen]
      rw [List.any_eq_true] at hseen
      obtain ⟨p, hp, hpk⟩ := hseen
      exact ⟨p, hp, by simpa using hpk⟩
    · rw [if_neg hseen]
      exact ⟨(create_taxon_key row, buildTaxon row),
        List.mem_append_right _ (List.mem_cons_self _ _), rfl⟩

/-- C10 witness: a fox row with a whitespace-only burst identifier is not
buffered, a whole input of such rows writes nothing, and the same row still
registers its taxon key in the Pass 1 buffer. -/
theorem missing_sequence_id_skipped_witness :
    addRowToBatch [] exRowNoSeq = [] ∧
    pass2 idMapEx [exRowNoSeq] emptyDB = emptyDB ∧
    ∃ p ∈ pass1Step [] exRowNoSeq, p.1 = create_taxon_key exRowNoSeq :=
  ⟨missing_sequence_id_skipped.1 [] exRowNoSeq (by decide),
    missing_sequence_id_skipped.2.1 idMapEx [exRowNoSeq] emptyDB
      (fun r hr => by rw [List.mem_singleton.mp hr]; decide),
    missing_sequence_id_skipped.2.2 [] exRowNoSeq (by decide)⟩

/-! ## Pass 2 store lemmas: growth, presence, absorption -/

theorem ext_refl (db : DB) : Ext db db :=
  ⟨[], [], by simp, by simp⟩

theorem ext_trans {a b c : DB} (h1 : Ext a b) (h2 : Ext b c) : Ext a c := by
  obtain ⟨s1, i1, hs1, hi1⟩ := h1
  obtain ⟨s2, i2, hs2, hi2⟩ := h2
  exact ⟨s1 ++ s2, i1 ++ i2, by rw [hs2, hs1, List.append_assoc],
    by rw [hi2, hi1, List.append_assoc]⟩

theorem pairMem_mono {d d2 : DB} (h : Ext d d2) {sid : String} {tid : Nat}
    (hp : pairMem d sid tid = true) : pairMem d2 sid tid = true := by
  obtain ⟨s, i, hs, _⟩ := h
  unfold pairMem at hp ⊢
  rw [hs, List.any_append, hp, Bool.true_or]

theorem imgMem_mono {d d2 : DB} (h : Ext d d2) {iid : String}
    (hp : imgMem d iid = true) : imgMem d2 iid = true := by
  obtain ⟨s, i, _, hi⟩ := h
  unfold imgMem at hp ⊢
  rw [hi, List.any_append, hp, Bool.true_or]

theorem ext_insertOrIgnoreSeq (db : DB) (sid : String) (tid : Nat)
    (loc dt : Option String) : Ext db (insertOrIgnoreSeq db sid tid loc dt) := by
  unfold insertOrIgnoreSeq
  by_cases h : pairMem db sid tid = true
  · rw [if_pos h]; exact ext_refl db
  · rw [if_neg h]
    exact ⟨[⟨db.sequences.length + 1, sid, tid, loc, dt⟩], [], rfl, by simp⟩

theorem ext_insertImage (db : DB) (stid : Nat) (r : Row) :
    Ext db (insertImage db stid r) := by
  unfold insertImage
  by_cases h : imgMem db (safe_str (r "image_id")) = true
  · rw [if_pos h]; exact ext_refl db
  · rw [if_neg h]
    exact ⟨[], [_], by simp, rfl⟩

theorem ext_insertImages (db : DB) (stid : Nat) (l : List Row) :
    Ext db (insertImages db stid l) := by
  induction l generalizing db with
  | nil => exact ext_refl db
  | cons r l ih =>
    exact ext_trans (ext_insertImage db stid r) (ih (insertImage db stid r))

theorem ext_processGroup (idMap : List String → Option Nat) (db : DB)
    (sid : String) (k : List String) (g : List Row) :
    Ext db (processGroup idMap db sid k g).1 := by
  unfold processGroup
  cases idMap k with
  | none => exact ext_refl db
  | some tid =>
    dsimp only
    by_cases h0 : (tid == 0) = true
    · rw [if_pos h0]; exact ext_refl db
    · rw [if_neg h0]
      cases g with
      | nil => exact ext_refl db
      | cons first rest =>
        dsimp only
        have he := ext_insertOrIgnoreSeq db sid tid
          (orNone (safe_str (first "location_id")))
          (orNone (safe_str (first "datetime")))
        cases findSeqId (insertOrIgnoreSeq db sid tid
            (orNone (safe_str (first "location_id")))
            (orNone (safe_str (first "datetime")))) sid tid with
        | none => exact he
        | some stid =>
          dsimp only
          cases sortImages (first :: rest) with
          | none => exact he
          | some sorted => exact ext_trans he (ext_insertImages _ stid sorted)

theorem ext_processGroups (idMap : List String → Option Nat) (db : DB)
    (sid : String) (gs : List (List String × List Row)) :
    Ext db (processGroups idMap db sid gs) := by
  induction gs generalizing db with
  | nil => exact ext_refl db
  | cons g rest ih =>
    obtain ⟨k, grows⟩ := g
    rw [processGroups]
    cases hpg : processGroup idMap db sid k grows with
    | mk db1 err =>
      have h1 : Ext db db1 := by
        have := ext_processGroup idMap db sid k grows
        rwa [hpg] at this
      cases err with
      | true => exact h1
      | false => exact ext_trans h1 (ih db1)

theorem ext_processBurst (idMap : List String → Option Nat) (db : DB)
    (sid : String) (rows : List Row) :
    Ext db (processBurst idMap db sid rows) :=
  ext_processGroups idMap db sid (groupByTaxon rows)

theorem ext_processBatch (idMap : List String → Option Nat) (db : DB)
    (batch : List (String × List Row)) :
    Ext db (processBatch idMap db batch) := by
  induction batch generalizing db with
  | nil => exact ext_refl db
  | cons p rest ih =>
    exact ext_trans (ext_processBurst idMap db p.1 p.2)
      (ih (processBurst idMap db p.1 p.2))

theorem ext_pass2Chunks (idMap : List String → Option Nat)
    (cs : List (List Row)) :
    ∀ (db : DB) (batch : List (String × List Row)),
      Ext db (pass2Chunks idMap cs db batch) := by
  induction cs with
  | nil =>
    intro db batch
    rw [pass2Chunks]
    by_cases h : batch.isEmpty
    · rw [if_pos h]; exact ext_refl db
    · rw [if_neg h]; exact ext_processBatch idMap db batch
  | cons c rest ih =>
    intro db batch
    rw [pass2Chunks]
    by_cases h : 5000 ≤ (c.foldl addRowToBatch batch).length
    · rw [if_pos h]
      exact ext_trans (ext_processBatch idMap db _) (ih _ [])
    · rw [if_neg h]
      exact ih db _

theorem pairMem_insertOrIgnoreSeq (db : DB) (sid : String) (tid : Nat)
    (loc dt : Option String) :
    pairMem (insertOrIgnoreSeq db sid tid loc dt) sid tid = true := by
  unfold insertOrIgnoreSeq
  by_cases h : pairMem db sid tid = true
  · rwa [if_pos h]
  · rw [if_neg h]
    unfold pairMem
    rw [List.any_append]
    simp

theorem insertOrIgnoreSeq_of_mem {db : DB} {sid : String} {tid : Nat}
    (loc dt : Option String) (h : pairMem db sid tid = true) :
    insertOrIgnoreSeq db sid tid loc dt = db := by
  unfold insertOrIgnoreSeq
  rw [if_pos h]

theorem imgMem_insertImage (db : DB) (stid : Nat) (r : Row) :
    imgMem (insertImage db stid r) (safe_str (r "image_id")) = true := by
  unfold insertImage
  by_cases h : imgMem db (safe_str (r "image_id")) = true
  · rwa [if_pos h]
  · rw [if_neg h]
    unfold imgMem
    rw [List.any_append]
    simp

theorem insertImage_of_mem {db : DB} {r : Row} (stid : Nat)
    (h : imgMem db (safe_str (r "image_id")) = true) :
    insertImage db stid r = db := by
  unfold insertImage
  rw [if_pos h]

theorem findSeqId_isSome_of_pairMem {db : DB} {sid : String} {tid : Nat}
    (h : pairMem db sid tid = true) :
    (findSeqId db sid tid).isSome = true := by
  unfold findSeqId
  rw [Option.isSome_map', List.find?_isSome]
  unfold pairMem at h
  rw [List.any_eq_true] at h
  exact h

theorem insertImages_presence (stid : Nat) :
    ∀ (l : List Row) (db : DB) (r : Row), r ∈ l →
      imgMem (insertImages db stid l) (safe_str (r "image_id")) = true := by
  intro l
  induction l with
  | nil => intro db r h; simp at h
  | cons x l ih =>
    intro db r h
    rcases List.mem_cons.mp h with h1 | h1
    · rw [h1]
      exact imgMem_mono (ext_insertImages (insertImage db stid x) stid l)
        (imgMem_insertImage db stid x)
    · exact ih (insertImage db stid x) r h1

theorem insertImages_stab :
    ∀ (l : List Row) (db db2 : DB) (stid stid2 : Nat),
      Ext (insertImages db stid l) db2 → insertImages db2 stid2 l = db2 := by
  intro l
  induction l with
  | nil => intro db db2 _ _ _; rfl
  | cons r l ih =>
    intro db db2 stid stid2 hExt
    have h1 : Ext (insertImage db stid r) db2 :=
      ext_trans (ext_insertImages (insertImage db stid r) stid l) hExt
    have hm : imgMem db2 (safe_str (r "image_id")) = true :=
      imgMem_mono h1 (imgMem_insertImage db stid r)
    show insertImages (insertImage db2 stid2 r) stid2 l = db2
    rw [insertImage_of_mem stid2 hm]
    exact ih (insertImage db stid r) db2 stid stid2 hExt

theorem processGroup_stab (idMap : List String → Option Nat) (sid : String)
    (k : List String) (g : List Row) {db db1 db2 : DB} {e : Bool}
    (h : processGroup idMap db sid k g = (db1, e)) (hExt : Ext db1 db2) :
    processGroup idMap db2 sid k g = (db2, e) := by
  unfold processGroup at h ⊢
  cases hik : idMap k with
  | none =>
    rw [hik] at h
    dsimp only at h ⊢
    injection h with h1 h2
    subst h1
    subst h2
    rfl
  | some tid =>
    rw [hik] at h
    dsimp only at h ⊢
    by_cases h0 : (tid == 0) = true
    · rw [if_pos h0] at h ⊢
      injection h with h1 h2
      subst h1
      subst h2
      rfl
    · rw [if_neg h0] at h ⊢
      cases g with
      | nil =>
        dsimp only at h ⊢
        injection h with h1 h2
        subst h1
        subst h2
        rfl
      | cons first rest =>
        dsimp only at h ⊢
        have hp1 : pairMem (insertOrIgnoreSeq db sid tid
            (orNone (safe_str (first "location_id")))
            (orNone (safe_str (first "datetime")))) sid tid = true :=
          pairMem_insertOrIgnoreSeq db sid tid _ _
        cases hf : findSeqId (insertOrIgnoreSeq db sid tid
            (orNone (safe_str (first "location_id")))
            (orNone (safe_str (first "datetime")))) sid tid with
        | none =>
          exfalso
          have hx := findSeqId_isSome_of_pairMem hp1
          rw [hf] at hx
          simp at hx
        | some stid =>
          rw [hf] at h
          dsimp only at h
          cases hs : sortImages (first :: rest) with
          | none =>
            rw [hs] at h
            dsimp only at h
            injection h with h1 h2
            subst h2
            have hExt1 : Ext (insertOrIgnoreSeq db sid tid
                (orNone (safe_str (first "location_id")))
                (orNone (safe_str (first "datetime")))) db2 := h1 ▸ hExt
            have hp2 : pairMem db2 sid tid = true := pairMem_mono hExt1 hp1
            rw [insertOrIgnoreSeq_of_mem _ _ hp2]
            obtain ⟨stid2, hstid2⟩ :=
              Option.isSome_iff_exists.mp (findSeqId_isSome_of_pairMem hp2)
            rw [hstid2]
          | some sorted =>
            rw [hs] at h
            dsimp only at h
            injection h with h1 h2
            subst h2
            have hExt1 : Ext (insertOrIgnoreSeq db sid tid
                (orNone (safe_str (first "location_id")))
                (orNone (safe_str (first "datetime")))) db2 :=
              ext_trans (ext_insertImages _ stid sorted) (h1 ▸ hExt)
            have hp2 : pairMem db2 sid tid = true := pairMem_mono hExt1 hp1
            rw [insertOrIgnoreSeq_of_mem _ _ hp2]
            obtain ⟨stid2, hstid2⟩ :=
              Option.isSome_iff_exists.mp (findSeqId_isSome_of_pairMem hp2)
            rw [hstid2]
            dsimp only
            rw [insertImages_stab sorted _ db2 stid stid2 (h1 ▸ hExt)]

theorem processGroups_stab (idMap : List String → Option Nat) (sid : String) :
    ∀ (gs : List (List String × List Row)) {db db1 db2 : DB},
      processGroups idMap db sid gs = db1 → Ext db1 db2 →
      processGroups idMap db2 sid gs = db2 := by
  intro gs
  induction gs with
  | nil =>
    intro db db1 db2 h hExt
    rfl
  | cons g rest ih =>
    intro db db1 db2 h hExt
    obtain ⟨k, grows⟩ := g
    rw [processGroups] at h ⊢
    cases hpg : processGroup idMap db sid k grows with
    | mk dbm err =>
      rw [hpg] at h
      cases err with
      | true =>
        dsimp only at h
        have hExt2 : Ext dbm db2 := by rw [h]; exact hExt
        rw [processGroup_stab idMap sid k grows hpg hExt2]
      | false =>
        dsimp only at h
        have hExtm : Ext dbm db1 := by
          have hg := ext_processGroups idMap dbm sid rest
          rwa [h] at hg
        rw [processGroup_stab idMap sid k grows hpg (ext_trans hExtm hExt)]
        exact ih h hExt

theorem processBurst_stab (idMap : List String → Option Nat) (sid : String)
    (rows : List Row) {db db1 db2 : DB}
    (h : processBurst idMap db sid rows = db1) (hExt : Ext db1 db2) :
    processBurst idMap db2 sid rows = db2 :=
  processGroups_stab idMap sid (groupByTaxon rows) h hExt

theorem processBatch_stab (idMap : List String → Option Nat) :
    ∀ (batch : List (String × List Row)) {db db1 db2 : DB},
      processBatch idMap db batch = db1 → Ext db1 db2 →
      processBatch idMap db2 batch = db2 := by
  intro batch
  induction batch with
  | nil =>
    intro db db1 db2 h hExt
    rfl
  | cons p rest ih =>
    intro db db1 db2 h hExt
    have h' : processBatch idMap (processBurst idMap db p.1 p.2) rest = db1 :=
      h
    have hExtm : Ext (processBurst idMap db p.1 p.2) db1 := by
      have := ext_processBatch idMap (processBurst idMap db p.1 p.2) rest
      rwa [h'] at this
    show processBatch idMap (processBurst idMap db2 p.1 p.2) rest = db2
    rw [processBurst_stab idMap p.1 p.2 rfl (ext_trans hExtm hExt)]
    exact ih h' hExt

theorem pass2Chunks_stab (idMap : List String → Option Nat) :
    ∀ (cs : List (List Row)) (batch : List (String × List Row))
      {db db1 db2 : DB},
      pass2Chunks idMap cs db batch = db1 → Ext db1 db2 →
      pass2Chunks idMap cs db2 batch = db2 := by
  intro cs
  induction cs with
  | nil =>
    intro batch db db1 db2 h hExt
    rw [pass2Chunks] at h ⊢
    by_cases hb : batch.isEmpty
    · rw [if_pos hb]
    · rw [if_neg hb] at h ⊢
      exact processBatch_stab idMap batch h hExt
  | cons c rest ih =>
    intro batch db db1 db2 h hExt
    rw [pass2Chunks] at h ⊢
    by_cases hlen : 5000 ≤ (c.foldl addRowToBatch batch).length
    · rw [if_pos hlen] at h ⊢
      have hExtm : Ext (processBatch idMap db (c.foldl addRowToBatch batch))
          db1 := by
        have := ext_pass2Chunks idMap rest
          (processBatch idMap db (c.foldl addRowToBatch batch)) []
        rwa [h] at this
      rw [processBatch_stab idMap _ rfl (ext_trans hExtm hExt)]
      exact ih [] h hExt
    · rw [if_neg hlen] at h ⊢
      exact ih _ h hExt

/-! ## Claim C5 -/

/-- C5: Pass 2 is idempotent — running it a second time over the same
input, starting from the store a first run produced, changes nothing:
every sequence insert is resolved by the existing
`(sequence_id, taxon_id)` row and every image insert is ignored by the
existing unique `image_id`, so no sequence or image rows are added and the
store is unchanged. -/
theorem pass2_idempotent (idMap : List String → Option Nat) (rows : List Row)
    (db : DB) :
    pass2 idMap rows (pass2 idMap rows db) = pass2 idMap rows db :=
  pass2Chunks_stab idMap (chunksOf 1000 rows) [] rfl
    (ext_refl (pass2 idMap rows db))

/-! ## Burst grouping lemmas and claim C4 -/

theorem addToGroup_inv {κ : Type} [BEq κ] (P : Row → Prop)
    {groups : List (κ × List Row)} {k : κ} {row : Row}
    (hacc : ∀ p ∈ groups, p.2 ≠ [] ∧ ∀ r ∈ p.2, P r) (hrow : P row) :
    ∀ p ∈ addToGroup groups k row, p.2 ≠ [] ∧ ∀ r ∈ p.2, P r := by
  intro p hp
  unfold addToGroup at hp
  by_cases hseen : (groups.any (fun g => g.1 == k)) = true
  · rw [if_pos hseen] at hp
    rw [List.mem_map] at hp
    obtain ⟨q, hq, hqp⟩ := hp
    by_cases hqk : (q.1 == k) = true
    · rw [if_pos hqk] at hqp
      rw [← hqp]
      refine ⟨by simp, ?_⟩
      intro r hr
      rcases List.mem_append.mp hr with h1 | h1
      · exact (hacc q hq).2 r h1
      · rw [List.mem_singleton.mp h1]
        exact hrow
    · rw [if_neg hqk] at hqp
      rw [← hqp]
      exact hacc q hq
  · rw [if_neg hseen] at hp
    rcases List.mem_append.mp hp with h1 | h1
    · exact hacc p h1
    · rw [List.mem_singleton.mp h1]
      exact ⟨by simp, by
        intro r hr
        rw [List.mem_singleton.mp hr]
        exact hrow⟩

theorem foldl_group_inv (P : Row → Prop) :
    ∀ (l : List Row) (acc : List (List String × List Row)),
      (∀ p ∈ acc, p.2 ≠ [] ∧ ∀ r ∈ p.2, P r) → (∀ r ∈ l, P r) →
      ∀ p ∈ l.foldl
        (fun a row => addToGroup a (create_taxon_key row) row) acc,
        p.2 ≠ [] ∧ ∀ r ∈ p.2, P r := by
  intro l
  induction l with
  | nil => intro acc hacc _ p hp; exact hacc p hp
  | cons row l ih =>
    intro acc hacc hl p hp
    rw [List.foldl_cons] at hp
    exact ih (addToGroup acc (create_taxon_key row) row)
      (addToGroup_inv P hacc (hl row (List.mem_cons_self _ _)))
      (fun r hr => hl r (List.mem_cons_of_mem _ hr)) p hp

theorem groupByTaxon_inv (P : Row → Prop) (rows : List Row)
    (h : ∀ r ∈ rows, P r) :
    ∀ p ∈ groupByTaxon rows, p.2 ≠ [] ∧ ∀ r ∈ p.2, P r :=
  foldl_group_inv P rows [] (by simp) h

theorem addToGroup_key_mem {κ : Type} [BEq κ] [LawfulBEq κ]
    (groups : List (κ × List Row)) (k : κ) (row : Row) :
    ∃ g, (k, g) ∈ addToGroup groups k row := by
  unfold addToGroup
  by_cases hseen : (groups.any (fun g => g.1 == k)) = true
  · rw [if_pos hseen]
    rw [List.any_eq_true] at hseen
    obtain ⟨q, hq, hqk⟩ := hseen
    refine ⟨q.2 ++ [row], ?_⟩
    have hmap : (fun g : κ × List Row =>
        if g.1 == k then (g.1, g.2 ++ [row]) else g) q
        = (k, q.2 ++ [row]) := by
      have hq1 : q.1 = k := by simpa using hqk
      simp [hq1]
    rw [← hmap]
    exact List.mem_map_of_mem _ hq
  · rw [if_neg hseen]
    exact ⟨[row], List.mem_append_right _ (List.mem_cons_self _ _)⟩

theorem addToGroup_key_preserved {κ : Type} [BEq κ] [LawfulBEq κ]
    {groups : List (κ × List Row)} {k : κ} (k2 : κ) (row : Row)
    (h : ∃ g, (k, g) ∈ groups) :
    ∃ g, (k, g) ∈ addToGroup groups k2 row := by
  obtain ⟨g, hg⟩ := h
  unfold addToGroup
  by_cases hseen : (groups.any (fun p => p.1 == k2)) = true
  · rw [if_pos hseen]
    by_cases hgk : ((k, g).1 == k2) = true
    · refine ⟨g ++ [row], ?_⟩
      have hmap : (fun p : κ × List Row =>
          if p.1 == k2 then (p.1, p.2 ++ [row]) else p) (k, g)
          = (k, g ++ [row]) := by simp only [hgk, if_true]
      rw [← hmap]
      exact List.mem_map_of_mem _ hg
    · refine ⟨g, ?_⟩
      have hmap : (fun p : κ × List Row =>
          if p.1 == k2 then (p.1, p.2 ++ [row]) else p) (k, g) = (k, g) := by
        simp only [Bool.not_eq_true] at hgk
        simp only [hgk, Bool.false_eq_true, if_false]
      rw [← hmap]
      exact List.mem_map_of_mem _ hg
  · rw [if_neg hseen]
    exact ⟨g, List.mem_append_left _ hg⟩

theorem foldl_group_key_mem :
    ∀ (l : List Row) (acc : List (List String × List Row)) (k : List String),
      ((∃ g, (k, g) ∈ acc) ∨ ∃ r ∈ l, create_taxon_key r = k) →
      ∃ g, (k, g) ∈ l.foldl
        (fun a row => addToGroup a (create_taxon_key row) row) acc := by
  intro l
  induction l with
  | nil =>
    intro acc k h
    rcases h with h | h
    · exact h
    · obtain ⟨r, hr, _⟩ := h
      simp at hr
  | cons row l ih =>
    intro acc k h
    rw [List.foldl_cons]
    apply ih
    rcases h with h | h
    · exact Or.inl (addToGroup_key_preserved _ row h)
    · obtain ⟨r, hr, hk⟩ := h
      rcases List.mem_cons.mp hr with h1 | h1
      · subst h1
        rw [← hk]
        exact Or.inl (addToGroup_key_mem acc (create_taxon_key r) r)
      · exact Or.inr ⟨r, h1, hk⟩

theorem groupByTaxon_key_mem {rows : List Row} {r : Row} (hr : r ∈ rows) :
    ∃ g, (create_taxon_key r, g) ∈ groupByTaxon rows :=
  foldl_group_key_mem rows [] (create_taxon_key r)
    (Or.inr ⟨r, hr, rfl⟩)

/-- A group whose rows are nonempty and all frame-parseable is processed
without raising, and if its key maps to a nonzero taxon id the pair
`(sid, taxon id)` is present afterwards. -/
theorem processGroup_ok (idMap : List String → Option Nat) (db : DB)
    (sid : String) (k : List String) (g : List Row) (hg : g ≠ [])
    (hf : ∀ r ∈ g, (frameVal r).isSome = true) :
    (processGroup idMap db sid k g).2 = false ∧
    (∀ t, idMap k = some t → t ≠ 0 →
      pairMem (processGroup idMap db sid k g).1 sid t = true) := by
  unfold processGroup
  cases hik : idMap k with
  | none =>
    refine ⟨rfl, fun t ht _ => ?_⟩
    exact absurd ht (by simp)
  | some tid =>
    dsimp only
    by_cases h0 : (tid == 0) = true
    · rw [if_pos h0]
      refine ⟨rfl, fun t ht ht0 => ?_⟩
      exfalso
      apply ht0
      have he : tid = t := Option.some.inj ht
      rw [← he]
      simpa using h0
    · rw [if_neg h0]
      cases g with
      | nil => exact absurd rfl hg
      | cons first rest =>
        dsimp only
        have hp1 : pairMem (insertOrIgnoreSeq db sid tid
            (orNone (safe_str (first "location_id")))
            (orNone (safe_str (first "datetime")))) sid tid = true :=
          pairMem_insertOrIgnoreSeq db sid tid _ _
        obtain ⟨stid, hstid⟩ :=
          Option.isSome_iff_exists.mp (findSeqId_isSome_of_pairMem hp1)
        rw [hstid]
        dsimp only
        have hsort : sortImages (first :: rest)
            = some (pySorted (fun r => (frameVal r).getD 0) (first :: rest)) := by
          unfold sortImages
          rw [if_pos (List.all_eq_true.mpr hf)]
        rw [hsort]
        dsimp only
        refine ⟨rfl, fun t ht ht0 => ?_⟩
        have he : tid = t := Option.some.inj ht
        subst he
        exact pairMem_mono (ext_insertImages _ stid _) hp1

theorem processGroups_pair_present (idMap : List String → Option Nat)
    (sid : String) :
    ∀ (gs : List (List String × List Row)) (db : DB),
      (∀ p ∈ gs, p.2 ≠ [] ∧ ∀ r ∈ p.2, (frameVal r).isSome = true) →
      ∀ k g t, (k, g) ∈ gs → idMap k = some t → t ≠ 0 →
        pairMem (processGroups idMap db sid gs) sid t = true := by
  intro gs
  induction gs with
  | nil => intro db _ k g t hmem; simp at hmem
  | cons p rest ih =>
    intro db hok k g t hmem ht ht0
    obtain ⟨k0, g0⟩ := p
    have hok0 := hok (k0, g0) (List.mem_cons_self _ _)
    have hpg := processGroup_ok idMap db sid k0 g0 hok0.1 hok0.2
    rw [processGroups]
    cases hres : processGroup idMap db sid k0 g0 with
    | mk dbm err =>
      have herr : err = false := by
        have := hpg.1
        rwa [hres] at this
      subst herr
      dsimp only
      rcases List.mem_cons.mp hmem with h1 | h1
      · have hkk : k0 = k ∧ g0 = g := by
          constructor
          · exact (congrArg Prod.fst h1.symm : k0 = k)
          · exact (congrArg Prod.snd h1.symm : g0 = g)
        have hpm : pairMem dbm sid t = true := by
          have := hpg.2 t (hkk.1 ▸ ht) ht0
          rwa [hres] at this
        exact pairMem_mono (ext_processGroups idMap dbm sid rest) hpm
      · exact ih dbm (fun q hq => hok q (List.mem_cons_of_mem _ hq))
          k g t h1 ht ht0

/-- Through a whole flushed batch: a burst of the batch whose rows are all
frame-parseable leaves one sequence row per mapped taxon key present. -/
theorem processBatch_pair_present (idMap : List String → Option Nat) :
    ∀ (batch : List (String × List Row)) (db : DB) (sid : String)
      (rows : List Row) (r : Row) (t : Nat),
      (sid, rows) ∈ batch → r ∈ rows →
      (∀ x ∈ rows, (frameVal x).isSome = true) →
      idMap (create_taxon_key r) = some t → t ≠ 0 →
      pairMem (processBatch idMap db batch) sid t = true := by
  intro batch
  induction batch with
  | nil => intro db sid rows r t hmem; simp at hmem
  | cons p rest ih =>
    intro db sid rows r t hmem hr hframes ht ht0
    rcases List.mem_cons.mp hmem with h1 | h1
    · subst h1
      show pairMem (processBatch idMap (processBurst idMap db sid rows) rest)
        sid t = true
      apply pairMem_mono (ext_processBatch idMap _ rest)
      unfold processBurst
      obtain ⟨g, hg⟩ := groupByTaxon_key_mem hr
      exact processGroups_pair_present idMap sid (groupByTaxon rows) db
        (groupByTaxon_inv _ rows hframes) (create_taxon_key r) g t hg ht ht0
    · exact ih (processBurst idMap db p.1 p.2) sid rows r t h1 hr hframes
        ht ht0

/-! ### Uniqueness of `(sequence_id, taxon_id)` is preserved -/

theorem seqPairsUnique_insertOrIgnoreSeq {db : DB} (sid : String) (tid : Nat)
    (loc dt : Option String) (h : seqPairsUnique db) :
    seqPairsUnique (insertOrIgnoreSeq db sid tid loc dt) := by
  unfold insertOrIgnoreSeq
  by_cases hp : pairMem db sid tid = true
  · rwa [if_pos hp]
  · rw [if_neg hp]
    unfold seqPairsUnique at h ⊢
    rw [List.pairwise_append]
    refine ⟨h, by simp, ?_⟩
    intro a ha b hb
    rw [List.mem_singleton.mp hb]
    unfold pairMem at hp
    have hall : ∀ s ∈ db.sequences,
        ¬(s.sequence_id == sid && s.taxon_id == tid) = true := by
      intro s hs hcon
      exact hp (List.any_eq_true.mpr ⟨s, hs, hcon⟩)
    have := hall a ha
    simp only [Bool.and_eq_true, beq_iff_eq, not_and] at this
    by_cases hsid : a.sequence_id = sid
    · exact Or.inr (this hsid)
    · exact Or.inl hsid

theorem sequences_insertImage (db : DB) (stid : Nat) (r : Row) :
    (insertImage db stid r).sequences = db.sequences := by
  unfold insertImage
  by_cases h : imgMem db (safe_str (r "image_id")) = true
  · rw [if_pos h]
  · rw [if_neg h]

theorem sequences_insertImages (stid : Nat) :
    ∀ (l : List Row) (db : DB),
      (insertImages db stid l).sequences = db.sequences := by
  intro l
  induction l with
  | nil => intro db; rfl
  | cons r l ih =>
    intro db
    show (insertImages (insertImage db stid r) stid l).sequences = _
    rw [ih, sequences_insertImage]

theorem seqPairsUnique_processGroup (idMap : List String → Option Nat)
    (db : DB) (sid : String) (k : List String) (g : List Row)
    (h : seqPairsUnique db) :
    seqPairsUnique (processGroup idMap db sid k g).1 := by
  unfold processGroup
  cases idMap k with
  | none => exact h
  | some tid =>
    dsimp only
    by_cases h0 : (tid == 0) = true
    · rwa [if_pos h0]
    · rw [if_neg h0]
      cases g with
      | nil => exact h
      | cons first rest =>
        dsimp only
        have h1 := seqPairsUnique_insertOrIgnoreSeq sid tid
          (orNone (safe_str (first "location_id")))
          (orNone (safe_str (first "datetime"))) h
        cases findSeqId (insertOrIgnoreSeq db sid tid
            (orNone (safe_str (first "location_id")))
            (orNone (safe_str (first "datetime")))) sid tid with
        | none => exact h1
        | some stid =>
          dsimp only
          cases sortImages (first :: rest) with
          | none => exact h1
          | some sorted =>
            dsimp only
            unfold seqPairsUnique at h1 ⊢
            rwa [sequences_insertImages]

theorem seqPairsUnique_processGroups (idMap : List String → Option Nat)
    (sid : String) :
    ∀ (gs : List (List String × List Row)) (db : DB),
      seqPairsUnique db → seqPairsUnique (processGroups idMap db sid gs) := by
  intro gs
  induction gs with
  | nil => intro db h; exact h
  | cons p rest ih =>
    intro db h
    obtain ⟨k, grows⟩ := p
    rw [processGroups]
    cases hres : processGroup idMap db sid k grows with
    | mk dbm err =>
      have hu : seqPairsUnique dbm := by
        have := seqPairsUnique_processGroup idMap db sid k grows h
        rwa [hres] at this
      cases err with
      | true => exact hu
      | false => exact ih dbm hu

theorem seqPairsUnique_processBatch (idMap : List String → Option Nat) :
    ∀ (batch : List (String × List Row)) (db : DB),
      seqPairsUnique db → seqPairsUnique (processBatch idMap db batch) := by
  intro batch
  induction batch with
  | nil => intro db h; exact h
  | cons p rest ih =>
    intro db h
    exact ih (processBurst idMap db p.1 p.2)
      (seqPairsUnique_processGroups idMap p.1 (groupByTaxon p.2) db h)

/-! ### Claim C4 -/

/-- C4, counterexample: burst `1001` holds a coyote row (whose frame value
`abc` is unparseable) and a puma row — two valid wildlife rows with
different composite keys, both keys in the Pass 1 id map (coyote to 1,
puma to 2) — yet the flush produces only *one* sequence record: the
coyote group's sort raises, the per-burst handler skips the burst's
remaining groups, and the puma record is never created. -/
theorem burst_split_counterexample :
    (processBatch idMapEx emptyDB
      [("1001", [coyRowBad, pumaRowC])]).sequences
      = [⟨1, "1001", 1, none, none⟩] ∧
    idMapEx (create_taxon_key coyRowBad) = some 1 ∧
    idMapEx (create_taxon_key pumaRowC) = some 2 ∧
    ¬ ∃ s ∈ (processBatch idMapEx emptyDB
      [("1001", [coyRowBad, pumaRowC])]).sequences, s.taxon_id = 2 := by
  refine ⟨by decide, by decide, by decide, ?_⟩
  rintro ⟨s, hs, hts⟩
  rw [show (processBatch idMapEx emptyDB
      [("1001", [coyRowBad, pumaRowC])]).sequences
      = [⟨1, "1001", 1, none, none⟩] from by decide] at hs
  rw [List.mem_singleton.mp hs] at hts
  simp at hts

/-- C4 as amended: provided every row of the burst has a
parseable-or-missing frame index (so no group of the burst raises during
its image sort), two rows of the same flushed burst with different
composite taxon keys, both keys resolvable through the Pass 1 id map, give
rise to two sequence records with the same `sequence_id` and different
(hence nonequal) `taxon_id`s, and the store keeps
`(sequence_id, taxon_id)` unique. -/
theorem burst_split_by_taxon (rows0 rows : List Row) (db : DB)
    (batch : List (String × List Row)) (sid : String) (r1 r2 : Row)
    (t1 t2 : Nat)
    (hmem : (sid, rows) ∈ batch) (hr1 : r1 ∈ rows) (hr2 : r2 ∈ rows)
    (hkne : create_taxon_key r1 ≠ create_taxon_key r2)
    (ht1 : alookup (create_taxon_key r1) (taxaIdMap (pass1Scan rows0))
      = some t1)
    (ht2 : alookup (create_taxon_key r2) (taxaIdMap (pass1Scan rows0))
      = some t2)
    (hframes : ∀ r ∈ rows, (frameVal r).isSome = true)
    (huniq : seqPairsUnique db) :
    t1 ≠ t2 ∧
    (∃ s1 ∈ (processBatch
        (fun k => alookup k (taxaIdMap (pass1Scan rows0))) db
        batch).sequences, s1.sequence_id = sid ∧ s1.taxon_id = t1) ∧
    (∃ s2 ∈ (processBatch
        (fun k => alookup k (taxaIdMap (pass1Scan rows0))) db
        batch).sequences, s2.sequence_id = sid ∧ s2.taxon_id = t2) ∧
    seqPairsUnique (processBatch
      (fun k => alookup k (taxaIdMap (pass1Scan rows0))) db batch) := by
  have hne12 : t1 ≠ t2 := by
    intro he
    exact hkne (taxaIdMap_injective (pass1Scan rows0) ht1 (he ▸ ht2))
  have hpos1 : t1 ≠ 0 := by
    have hm := alookup_eq_some_mem ht1
    have := taxaIdMapGo_id_ge (pass1Scan rows0) 1 _ hm
    omega
  have hpos2 : t2 ≠ 0 := by
    have hm := alookup_eq_some_mem ht2
    have := taxaIdMapGo_id_ge (pass1Scan rows0) 1 _ hm
    omega
  have hp1 := processBatch_pair_present
    (fun k => alookup k (taxaIdMap (pass1Scan rows0))) batch db sid rows r1
    t1 hmem hr1 hframes ht1 hpos1
  have hp2 := processBatch_pair_present
    (fun k => alookup k (taxaIdMap (pass1Scan rows0))) batch db sid rows r2
    t2 hmem hr2 hframes ht2 hpos2
  rw [pairMem, List.any_eq_true] at hp1 hp2
  obtain ⟨s1, hs1, hb1⟩ := hp1
  obtain ⟨s2, hs2, hb2⟩ := hp2
  simp only [Bool.and_eq_true, beq_iff_eq] at hb1 hb2
  exact ⟨hne12, ⟨s1, hs1, hb1.1, hb1.2⟩, ⟨s2, hs2, hb2.1, hb2.2⟩,
    seqPairsUnique_processBatch _ batch db huniq⟩

/-- C4 witness: the §8 scenario — a coyote and a puma in burst `1001`. -/
theorem burst_split_by_taxon_witness :
    (1 : Nat) ≠ 2 ∧
    (∃ s1 ∈ (processBatch
        (fun k => alookup k (taxaIdMap (pass1Scan [coyRowA, pumaRowC])))
        emptyDB
        [("1001", [coyRowA, coyRowB, pumaRowC])]).sequences,
      s1.sequence_id = "1001" ∧ s1.taxon_id = 1) ∧
    (∃ s2 ∈ (processBatch
        (fun k => alookup k (taxaIdMap (pass1Scan [coyRowA, pumaRowC])))
        emptyDB
        [("1001", [coyRowA, coyRowB, pumaRowC])]).sequences,
      s2.sequence_id = "1001" ∧ s2.taxon_id = 2) ∧
    seqPairsUnique (processBatch
      (fun k => alookup k (taxaIdMap (pass1Scan [coyRowA, pumaRowC])))
      emptyDB [("1001", [coyRowA, coyRowB, pumaRowC])]) := by
  have hframes : ∀ r ∈ [coyRowA, coyRowB, pumaRowC],
      (frameVal r).isSome = true := by
    intro r hr
    rcases List.mem_cons.mp hr with h | hr
    · rw [h]; decide
    rcases List.mem_cons.mp hr with h | hr
    · rw [h]; decide
    rcases List.mem_cons.mp hr with h | hr
    · rw [h]; decide
    · simp at hr
  exact burst_split_by_taxon [coyRowA, pumaRowC] [coyRowA, coyRowB, pumaRowC]
    emptyDB [("1001", [coyRowA, coyRowB, pumaRowC])] "1001" coyRowA pumaRowC
    1 2 (List.mem_cons_self _ _) (List.mem_cons_self _ _)
    (by right; right; exact List.mem_cons_self _ _)
    (by decide) (by decide) (by decide) hframes
    (by unfold seqPairsUnique emptyDB; exact List.Pairwise.nil)

/-! ## Stable frame sorting lemmas and claim C6 -/

theorem insAfter_perm (key : Row → Int) (x : Row) :
    ∀ l, List.Perm (insAfter key x l) (x :: l) := by
  intro l
  induction l with
  | nil => exact List.Perm.refl _
  | cons y ys ih =>
    unfold insAfter
    by_cases h : key y ≤ key x
    · rw [if_pos h]
      exact List.Perm.trans (List.Perm.cons y ih) (List.Perm.swap x y ys)
    · rw [if_neg h]

theorem foldl_insAfter_perm (key : Row → Int) :
    ∀ (l acc : List Row),
      List.Perm (l.foldl (fun a x => insAfter key x a) acc) (acc ++ l) := by
  intro l
  induction l with
  | nil => intro acc; simp
  | cons x xs ih =>
    intro acc
    rw [List.foldl_cons]
    have h1 := ih (insAfter key x acc)
    have h2 : List.Perm (insAfter key x acc ++ xs) ((x :: acc) ++ xs) :=
      List.Perm.append_right xs (insAfter_perm key x acc)
    have h3 : List.Perm ((x :: acc) ++ xs) (acc ++ x :: xs) :=
      List.Perm.symm List.perm_middle
    exact h1.trans (h2.trans h3)

theorem pySorted_perm (key : Row → Int) (l : List Row) :
    List.Perm (pySorted key l) l := by
  have := foldl_insAfter_perm key l []
  simpa [pySorted] using this

theorem mem_insAfter (key : Row → Int) (x z : Row) :
    ∀ l, z ∈ insAfter key x l → z = x ∨ z ∈ l := by
  intro l
  induction l with
  | nil =>
    intro h
    rw [insAfter] at h
    exact Or.inl (List.mem_singleton.mp h)
  | cons y ys ih =>
    intro h
    rw [insAfter] at h
    by_cases hle : key y ≤ key x
    · rw [if_pos hle] at h
      rcases List.mem_cons.mp h with h1 | h1
      · exact Or.inr (h1 ▸ List.mem_cons_self _ _)
      · rcases ih h1 with h2 | h2
        · exact Or.inl h2
        · exact Or.inr (List.mem_cons_of_mem _ h2)
    · rw [if_neg hle] at h
      rcases List.mem_cons.mp h with h1 | h1
      · exact Or.inl h1
      · exact Or.inr h1

theorem insAfter_sorted (key : Row → Int) (x : Row) :
    ∀ l, l.Pairwise (fun a b => key a ≤ key b) →
      (insAfter key x l).Pairwise (fun a b => key a ≤ key b) := by
  intro l
  induction l with
  | nil => intro _; simp [insAfter]
  | cons y ys ih =>
    intro h
    obtain ⟨hy, hys⟩ := List.pairwise_cons.mp h
    rw [insAfter]
    by_cases hle : key y ≤ key x
    · rw [if_pos hle]
      rw [List.pairwise_cons]
      refine ⟨?_, ih hys⟩
      intro z hz
      rcases mem_insAfter key x z ys hz with h1 | h1
      · rw [h1]; exact hle
      · exact hy z h1
    · rw [if_neg hle]
      rw [List.pairwise_cons]
      refine ⟨?_, h⟩
      intro z hz
      have hxy : key x ≤ key y := Int.le_of_lt (Int.lt_of_not_ge hle)
      rcases List.mem_cons.mp hz with h1 | h1
      · rw [h1]; exact hxy
      · exact Int.le_trans hxy (hy z h1)

theorem pySorted_sorted (key : Row → Int) (l : List Row) :
    (pySorted key l).Pairwise (fun a b => key a ≤ key b) := by
  unfold pySorted
  have main : ∀ (xs acc : List Row),
      acc.Pairwise (fun a b => key a ≤ key b) →
      (xs.foldl (fun a x => insAfter key x a) acc).Pairwise
        (fun a b => key a ≤ key b) := by
    intro xs
    induction xs with
    | nil => intro acc h; exact h
    | cons x xs ih =>
      intro acc h
      rw [List.foldl_cons]
      exact ih _ (insAfter_sorted key x acc h)
  exact main l [] (by simp)

theorem images_insertOrIgnoreSeq (db : DB) (sid : String) (tid : Nat)
    (loc dt : Option String) :
    (insertOrIgnoreSeq db sid tid loc dt).images = db.images := by
  unfold insertOrIgnoreSeq
  by_cases h : pairMem db sid tid = true
  · rw [if_pos h]
  · rw [if_neg h]

theorem insertImages_images_append (stid : Nat) :
    ∀ (l : List Row) (db : DB), ∃ new : List ImgRec,
      (insertImages db stid l).images = db.images ++ new ∧
      List.Sublist (new.map (fun im => im.frame_num))
        (l.map (fun r => (frameVal r).getD 0)) := by
  intro l
  induction l with
  | nil => intro db; exact ⟨[], by simp [insertImages], by simp⟩
  | cons r l ih =>
    intro db
    show ∃ new, (insertImages (insertImage db stid r) stid l).images
      = db.images ++ new ∧ _
    unfold insertImage
    by_cases h : imgMem db (safe_str (r "image_id")) = true
    · rw [if_pos h]
      obtain ⟨new, hnew, hsub⟩ := ih db
      exact ⟨new, hnew, List.Sublist.cons _ hsub⟩
    · rw [if_neg h]
      obtain ⟨new, hnew, hsub⟩ := ih
        { db with images := db.images ++
            [⟨db.images.length + 1, safe_str (r "image_id"), stid,
              (frameVal r).getD 0, orNone (safe_str (r "url_gcp")),
              orNone (safe_str (r "url_aws")),
              orNone (safe_str (r "url_azure"))⟩] }
      refine ⟨⟨db.images.length + 1, safe_str (r "image_id"), stid,
        (frameVal r).getD 0, orNone (safe_str (r "url_gcp")),
        orNone (safe_str (r "url_aws")),
        orNone (safe_str (r "url_azure"))⟩ :: new, ?_, ?_⟩
      · rw [hnew]
        simp
      · exact List.Sublist.cons₂ _ hsub

/-- C6, counterexample: in a burst with frames `2`, `1` and the unparseable
value `abc`, the code persists *no* images at all for the group — the
`int()` inside the sort key raises and the per-burst handler skips the rest
of the burst (the sequence row, inserted before the sort, remains) — rather
than treating the unparseable frame as 0 and persisting three frames in
order. -/
theorem frame_order_counterexample :
    (processBatch idMapEx emptyDB
      [("1001", [coyRowA, coyRowB, coyRowBad])]).images = [] ∧
    (processBatch idMapEx emptyDB
      [("1001", [coyRowA, coyRowB, coyRowBad])]).sequences.length = 1 := by
  decide

/-- C6 as amended: within each (burst, taxon) group, a *missing* frame
index (absent column, NA value, or a value normalizing to the empty
string) defaults to 0 and therefore sorts first, and when every frame
value of the group is missing-or-parseable the group's image rows are
persisted in ascending integer frame order (a stable sort of the group's
rows); but a non-empty *unparseable* frame value raises inside the sort
key, so no image of the group is persisted and the burst's remaining
groups are skipped.  In particular frames `[2, 1, missing]` are persisted
in the order `[missing→0, 1, 2]`, while frames `[2, 1, unparseable]`
persist nothing. -/
theorem frame_order_amended :
    (∀ rows, (∃ r ∈ rows, frameVal r = none) → sortImages rows = none) ∧
    (∀ rows, (∀ r ∈ rows, (frameVal r).isSome = true) →
      sortImages rows
          = some (pySorted (fun r => (frameVal r).getD 0) rows) ∧
      List.Perm (pySorted (fun r => (frameVal r).getD 0) rows) rows ∧
      (pySorted (fun r => (frameVal r).getD 0) rows).Pairwise
        (fun a b => (frameVal a).getD 0 ≤ (frameVal b).getD 0)) ∧
    (∀ (idMap : List String → Option Nat) (db : DB) (sid : String)
      (k : List String) (g : List Row) (tid : Nat),
      idMap k = some tid → tid ≠ 0 → g ≠ [] →
      (∀ r ∈ g, (frameVal r).isSome = true) →
      ∃ new : List ImgRec,
        (processGroup idMap db sid k g).1.images = db.images ++ new ∧
        new.Pairwise (fun a b => a.frame_num ≤ b.frame_num)) ∧
    ((processBatch idMapEx emptyDB
        [("1001", [coyRowA, coyRowB, coyRowNoFrame])]).images.map
      (fun im => (im.image_id, im.frame_num))
      = [("X", 0), ("B", 1), ("A", 2)]) ∧
    ((processBatch idMapEx emptyDB
        [("1001", [coyRowA, coyRowB, coyRowBad])]).images = []) := by
  refine ⟨?_, ?_, ?_, by decide, by decide⟩
  · intro rows ⟨r, hr, hnone⟩
    unfold sortImages
    rw [if_neg]
    intro hall
    have := List.all_eq_true.mp hall r hr
    rw [hnone] at this
    simp at this
  · intro rows hall
    refine ⟨?_, pySorted_perm _ rows, pySorted_sorted _ rows⟩
    unfold sortImages
    rw [if_pos (List.all_eq_true.mpr hall)]
  · intro idMap db sid k g tid ht ht0 hg hall
    unfold processGroup
    cases hik : idMap k with
    | none => rw [hik] at ht; exact absurd ht (by simp)
    | some tid2 =>
      have he : tid2 = tid := by rw [hik] at ht; exact Option.some.inj ht
      subst he
      dsimp only
      rw [if_neg (by simpa using ht0)]
      cases g with
      | nil => exact absurd rfl hg
      | cons first rest =>
        dsimp only
        have hp1 : pairMem (insertOrIgnoreSeq db sid tid2
            (orNone (safe_str (first "location_id")))
            (orNone (safe_str (first "datetime")))) sid tid2 = true :=
          pairMem_insertOrIgnoreSeq db sid tid2 _ _
        obtain ⟨stid, hstid⟩ :=
          Option.isSome_iff_exists.mp (findSeqId_isSome_of_pairMem hp1)
        rw [hstid]
        dsimp only
        have hsort : sortImages (first :: rest)
            = some (pySorted (fun r => (frameVal r).getD 0)
              (first :: rest)) := by
          unfold sortImages
          rw [if_pos (List.all_eq_true.mpr hall)]
        rw [hsort]
        dsimp only
        obtain ⟨new, hnew, hsub⟩ := insertImages_images_append stid
          (pySorted (fun r => (frameVal r).getD 0) (first :: rest))
          (insertOrIgnoreSeq db sid tid2
            (orNone (safe_str (first "location_id")))
            (orNone (safe_str (first "datetime"))))
        refine ⟨new, ?_, ?_⟩
        · rw [hnew, images_insertOrIgnoreSeq]
        · have hps : (pySorted (fun r => (frameVal r).getD 0)
              (first :: rest)).Pairwise
              (fun a b => (frameVal a).getD 0 ≤ (frameVal b).getD 0) :=
            pySorted_sorted _ _
          have hmap : ((pySorted (fun r => (frameVal r).getD 0)
              (first :: rest)).map (fun r => (frameVal r).getD 0)).Pairwise
              (fun a b => a ≤ b) := List.pairwise_map.mpr hps
          have hnewmap : ((new.map (fun im => im.frame_num)).Pairwise
              (fun a b => a ≤ b)) := hmap.sublist hsub
          exact List.pairwise_map.mp hnewmap

/-- C6 amended witness: the coyote group with frames `2`, `1` and a missing
frame is persisted ascending. -/
theorem frame_order_amended_witness :
    ∃ new : List ImgRec,
      (processGroup idMapEx emptyDB "1001" (create_taxon_key coyRowA)
        [coyRowA, coyRowB, coyRowNoFrame]).1.images
        = emptyDB.images ++ new ∧
      new.Pairwise (fun a b => a.frame_num ≤ b.frame_num) := by
  have hall : ∀ r ∈ [coyRowA, coyRowB, coyRowNoFrame],
      (frameVal r).isSome = true := by
    intro r hr
    rcases List.mem_cons.mp hr with h | hr
    · rw [h]; decide
    rcases List.mem_cons.mp hr with h | hr
    · rw [h]; decide
    rcases List.mem_cons.mp hr with h | hr
    · rw [h]; decide
    · simp at hr
  exact frame_order_amended.2.2.1 idMapEx emptyDB "1001"
    (create_taxon_key coyRowA) [coyRowA, coyRowB, coyRowNoFrame] 1
    (by decide) (by decide) (by simp) hall

/-! ## Fallible-write lemmas and claim C9 -/

theorem insertImagesF_nofail (fail : Wop → Bool)
    (himg : ∀ i, fail (Wop.imgIns i) = false) (stid : Nat) :
    ∀ (l : List Row) (db : DB),
      insertImagesF fail db stid l = (insertImages db stid l, false) := by
  intro l
  induction l with
  | nil => intro db; rfl
  | cons r rs ih =>
    intro db
    rw [insertImagesF]
    rw [himg (safe_str (r "image_id")), if_neg (by simp)]
    exact ih (insertImage db stid r)

theorem processGroupF_nofail (fail : Wop → Bool) (sid : String)
    (hseq : ∀ t, fail (Wop.seqIns sid t) = false)
    (himg : ∀ i, fail (Wop.imgIns i) = false)
    (idMap : List String → Option Nat) (db : DB) (k : List String)
    (g : List Row) :
    processGroupF fail idMap db sid k g = processGroup idMap db sid k g := by
  unfold processGroupF processGroup
  cases idMap k with
  | none => rfl
  | some tid =>
    dsimp only
    by_cases h0 : (tid == 0) = true
    · rw [if_pos h0, if_pos h0]
    · rw [if_neg h0, if_neg h0]
      cases g with
      | nil => rfl
      | cons first rest =>
        dsimp only
        rw [hseq tid, if_neg (by simp)]
        cases findSeqId (insertOrIgnoreSeq db sid tid
            (orNone (safe_str (first "location_id")))
            (orNone (safe_str (first "datetime")))) sid tid with
        | none => rfl
        | some stid =>
          dsimp only
          cases sortImages (first :: rest) with
          | none => rfl
          | some sorted =>
            dsimp only
            exact insertImagesF_nofail fail himg stid sorted _

theorem processGroupsF_nofail (fail : Wop → Bool) (sid : String)
    (hseq : ∀ t, fail (Wop.seqIns sid t) = false)
    (himg : ∀ i, fail (Wop.imgIns i) = false)
    (idMap : List String → Option Nat) :
    ∀ (gs : List (List String × List Row)) (db : DB),
      processGroupsF fail idMap db sid gs = processGroups idMap db sid gs := by
  intro gs
  induction gs with
  | nil => intro db; rfl
  | cons p rest ih =>
    intro db
    obtain ⟨k, grows⟩ := p
    rw [processGroupsF, processGroups,
      processGroupF_nofail fail sid hseq himg idMap db k grows]
    cases processGroup idMap db sid k grows with
    | mk dbm err =>
      cases err with
      | true => rfl
      | false => exact ih dbm

theorem processBurstF_nofail (fail : Wop → Bool) (sid : String)
    (hseq : ∀ t, fail (Wop.seqIns sid t) = false)
    (himg : ∀ i, fail (Wop.imgIns i) = false)
    (idMap : List String → Option Nat) (db : DB) (rows : List Row) :
    processBurstF fail idMap db sid rows = processBurst idMap db sid rows :=
  processGroupsF_nofail fail sid hseq himg idMap (groupByTaxon rows) db

/-- A burst whose every `sequences` write fails contributes nothing: the
first write the burst attempts raises, and the per-burst handler drops the
rest of the burst. -/
theorem processBurstF_failed (b : String)
    (idMap : List String → Option Nat) :
    ∀ (gs : List (List String × List Row)) (db : DB),
      processGroupsF (failSeqOf b) idMap db b gs = db := by
  intro gs
  induction gs with
  | nil => intro db; rfl
  | cons p rest ih =>
    intro db
    obtain ⟨k, grows⟩ := p
    rw [processGroupsF]
    have hgr : ∃ e, processGroupF (failSeqOf b) idMap db b k grows
        = (db, e) := by
      unfold processGroupF
      cases idMap k with
      | none => exact ⟨false, rfl⟩
      | some tid =>
        dsimp only
        by_cases h0 : (tid == 0) = true
        · rw [if_pos h0]
          exact ⟨false, rfl⟩
        · rw [if_neg h0]
          cases grows with
          | nil => exact ⟨true, rfl⟩
          | cons first rest2 =>
            dsimp only
            have hb : failSeqOf b (Wop.seqIns b tid) = true := by
              unfold failSeqOf
              simp
            refine ⟨true, ?_⟩
            rw [hb, if_pos rfl]
    obtain ⟨e, he⟩ := hgr
    rw [he]
    cases e with
    | true => rfl
    | false => exact ih db

/-- C9, counterexample: with every write to burst `1001` failing, the
flush still processes burst `1002` and commits its sequence row —
contradicting the claim that a storage write failure aborts the pass with
no further bursts processed. -/
theorem write_failure_counterexample :
    (processBatchF (failSeqOf "1001") idMapEx emptyDB
      [("1001", [coyRowB]), ("1002", [pumaRowD])]).sequences
      = [⟨1, "1002", 2, none, none⟩] := by
  decide

/-- C9 as amended: a storage write failure inside a flush's per-burst work
does *not* abort the pass.  The raised error is caught by the per-burst
handler: the failing burst's remaining work is skipped (a burst whose
sequence-insert writes fail contributes nothing), and the flush continues
with every other burst exactly as in the failure-free run.  Failure-free
runs of the fallible model coincide with the plain model; flushes are
still committed per batch, so committed flushes are unaffected by later
failures. -/
theorem write_failure_amended :
    (∀ (idMap : List String → Option Nat) (b : String)
      (batch : List (String × List Row)) (db : DB),
      processBatchF (failSeqOf b) idMap db batch
        = processBatch idMap db (batch.filter (fun p => !(p.1 == b)))) ∧
    (∀ (idMap : List String → Option Nat)
      (batch : List (String × List Row)) (db : DB),
      processBatchF (fun _ => false) idMap db batch
        = processBatch idMap db batch) := by
  constructor
  · intro idMap b batch
    induction batch with
    | nil => intro db; rfl
    | cons p rest ih =>
      intro db
      obtain ⟨sid, rows⟩ := p
      by_cases hsid : (sid == b) = true
      · have hb : sid = b := by simpa using hsid
        subst hb
        show processBatchF (failSeqOf sid) idMap
          (processBurstF (failSeqOf sid) idMap db sid rows) rest = _
        rw [show processBurstF (failSeqOf sid) idMap db sid rows = db from
          processBurstF_failed sid idMap (groupByTaxon rows) db]
        rw [List.filter_cons]
        rw [show (!((sid, rows).1 == sid)) = false by simp]
        rw [if_neg (by simp)]
        exact ih db
      · show processBatchF (failSeqOf b) idMap
          (processBurstF (failSeqOf b) idMap db sid rows) rest = _
        rw [processBurstF_nofail (failSeqOf b) sid
          (fun t => by unfold failSeqOf; simpa using hsid)
          (fun i => rfl) idMap db rows]
        rw [List.filter_cons]
        rw [show (!((sid, rows).1 == b)) = true by simpa using hsid]
        rw [if_pos rfl]
        exact ih (processBurst idMap db sid rows)
  · intro idMap batch
    induction batch with
    | nil => intro db; rfl
    | cons p rest ih =>
      intro db
      obtain ⟨sid, rows⟩ := p
      show processBatchF (fun _ => false) idMap
        (processBurstF (fun _ => false) idMap db sid rows) rest = _
      rw [processBurstF_nofail (fun _ => false) sid (fun t => rfl)
        (fun i => rfl) idMap db rows]
      exact ih (processBurst idMap db sid rows)

end CameraTrap
